import Mathlib

/-!
Verification of the RESTful-Collections engine (src/lib/collections.ts).

The engine stores JSON-like records in an ordered key-value store
(Deno.Kv) and maintains one secondary-index entry per registered index
per live record.  This file gives a shallow embedding of the engine:

* records are association lists of fields (JS objects), with JS object
  spread modelled field-order faithfully;
* the key-value store is an ordered association list from component-list
  keys to values with a monotone versionstamp counter, together with
  per-key failure oracles modelling rejected writes and deletes;
* every engine operation (`list`, `listSubcollection`, `get`, `append`,
  `replace`, `merge`, `delete`) is translated line by line from the
  TypeScript source.
-/

/-- Field values of a JSON-like record: strings and numbers (the
versionstamp marker is stored as a number). -/
inductive FieldVal where
  | s (v : String)
  | n (v : Nat)
deriving DecidableEq, Repr

/-- A record is a JS object: an ordered association list of fields. -/
abbrev Record := List (String × FieldVal)

/-- Field access on a record: the first binding of the field name. -/
def lookupField : Record → String → Option FieldVal
  | [], _ => none
  | p :: ps, f => if p.1 = f then some p.2 else lookupField ps f

/-- JS object spread `\x7b ...old, ...new \x7d`: old fields in order with
values overridden by `new` where present, followed by the fields of
`new` absent from `old`. -/
def spreadFields (old new : Record) : Record :=
  old.map (fun p =>
    match lookupField new p.1 with
    | some v => (p.1, v)
    | none => p) ++
  new.filter (fun p => (lookupField old p.1).isNone)

/-- A record avoids the reserved metadata field names. -/
def noReserved (r : Record) : Bool :=
  r.all (fun p => decide (p.1 ≠ "$$id") && decide (p.1 ≠ "$$versionstamp"))

/-- Metadata augmentation `\x7b $$id: id, $$versionstamp: vs, ...value \x7d`
as produced by every read/write path of the engine. -/
def withMetadata (id : String) (ver : Nat) (v : Record) : Record :=
  spreadFields [("$$id", FieldVal.s id), ("$$versionstamp", FieldVal.n ver)] v

theorem lookupField_append (l1 l2 : Record) (f : String) :
    lookupField (l1 ++ l2) f =
      match lookupField l1 f with
      | some x => some x
      | none => lookupField l2 f := by
  induction l1 with
  | nil => simp [lookupField]
  | cons p ps ih =>
      by_cases h : p.1 = f <;> simp [lookupField, h, ih]

theorem lookupField_map_override (old new : Record) (f : String) :
    lookupField (old.map (fun p =>
      match lookupField new p.1 with
      | some v => (p.1, v)
      | none => p)) f =
      match lookupField old f with
      | none => none
      | some x =>
          match lookupField new f with
          | some y => some y
          | none => some x := by
  induction old with
  | nil => simp [lookupField]
  | cons p ps ih =>
      by_cases h : p.1 = f
      · subst h
        cases hn : lookupField new p.1 <;>
          simp [lookupField, hn]
      · cases hn : lookupField new p.1 <;>
          simp [lookupField, hn, h, ih]

theorem lookupField_filter_absent (old new : Record) (f : String) :
    lookupField (new.filter (fun p => (lookupField old p.1).isNone)) f =
      if (lookupField old f).isNone then lookupField new f else none := by
  induction new with
  | nil => simp [lookupField]
  | cons p ps ih =>
      by_cases h : p.1 = f
      · subst h
        cases ho : lookupField old p.1 <;>
          simp [lookupField, List.filter, ho, ih]
      · cases ho : lookupField old p.1 <;>
          cases hp : lookupField old p.1 <;>
          simp [List.filter, lookupField, h, ih, hp]

/-- Lookup in a JS spread: fields of the second object win. -/
theorem lookupField_spreadFields (old new : Record) (f : String) :
    lookupField (spreadFields old new) f =
      match lookupField new f with
      | some x => some x
      | none => lookupField old f := by
  rw [spreadFields, lookupField_append, lookupField_map_override,
    lookupField_filter_absent]
  cases ho : lookupField old f <;> cases hn : lookupField new f <;>
    simp [ho, hn]

theorem spreadFields_nil (old : Record) : spreadFields old [] = old := by
  simp [spreadFields, lookupField]

theorem noReserved_lookup_id (r : Record) (h : noReserved r = true) :
    lookupField r "$$id" = none := by
  induction r with
  | nil => simp [lookupField]
  | cons p ps ih =>
      simp only [noReserved, List.all_cons, Bool.and_eq_true,
        decide_eq_true_eq] at h
      simp [lookupField, h.1.1, ih (by simpa [noReserved] using h.2)]

theorem noReserved_lookup_vs (r : Record) (h : noReserved r = true) :
    lookupField r "$$versionstamp" = none := by
  induction r with
  | nil => simp [lookupField]
  | cons p ps ih =>
      simp only [noReserved, List.all_cons, Bool.and_eq_true,
        decide_eq_true_eq] at h
      simp [lookupField, h.1.2, ih (by simpa [noReserved] using h.2)]

theorem withMetadata_lookup_id (id : String) (ver : Nat) (v : Record)
    (h : noReserved v = true) :
    lookupField (withMetadata id ver v) "$$id" = some (FieldVal.s id) := by
  rw [withMetadata, lookupField_spreadFields, noReserved_lookup_id v h]
  simp [lookupField]

theorem withMetadata_lookup_vs (id : String) (ver : Nat) (v : Record)
    (h : noReserved v = true) :
    lookupField (withMetadata id ver v) "$$versionstamp" =
      some (FieldVal.n ver) := by
  rw [withMetadata, lookupField_spreadFields, noReserved_lookup_vs v h]
  simp [lookupField]

theorem withMetadata_lookup_other (id : String) (ver : Nat) (v : Record)
    (f : String) (h1 : f ≠ "$$id") (h2 : f ≠ "$$versionstamp") :
    lookupField (withMetadata id ver v) f = lookupField v f := by
  rw [withMetadata, lookupField_spreadFields]
  cases hv : lookupField v f <;>
    simp [lookupField, Ne.symm h1, Ne.symm h2, hv]

/-! ### The ordered key-value store (Deno.Kv) -/

/-- A physical store key is a sequence of string components. -/
abbrev Key := List String

/-- Codepoint comparison of characters. -/
def charLtB (a b : Char) : Bool := a.toNat < b.toNat

/-- Lexicographic codepoint comparison of strings. -/
def listCharLt : List Char → List Char → Bool
  | [], [] => false
  | [], _ :: _ => true
  | _ :: _, [] => false
  | a :: as, b :: bs =>
      if charLtB a b then true else if charLtB b a then false
      else listCharLt as bs

/-- String comparison of key components. -/
def strLtB (a b : String) : Bool := listCharLt a.data b.data

/-- Lexicographic comparison of key component sequences, the order Deno.Kv
scans in. -/
def keyLt : Key → Key → Bool
  | [], [] => false
  | [], _ :: _ => true
  | _ :: _, [] => false
  | a :: as, b :: bs =>
      if strLtB a b then true else if strLtB b a then false else keyLt as bs

/-- A stored entry: key, value, versionstamp. -/
abbrev KvEntry := Key × Record × Nat

/-- Insert an entry into the key-ordered entry list, replacing an existing
entry with the same key. -/
def insertEntry (k : Key) (v : Record) (ver : Nat) : List KvEntry → List KvEntry
  | [] => [(k, v, ver)]
  | e :: es =>
      if keyLt k e.1 then (k, v, ver) :: e :: es
      else if e.1 = k then (k, v, ver) :: es
      else e :: insertEntry k v ver es

/-- Point lookup (kv.get) on an entry list. -/
def lookupE : List KvEntry → Key → Option (Record × Nat)
  | [], _ => none
  | e :: es, k => if e.1 = k then some e.2 else lookupE es k

/-- The key-value store state.  The three key lists are failure oracles:
a `kv.set` whose key is in `setThrowKeys` rejects (commits nothing), one
whose key is in `setOkFalseKeys` resolves with `ok: false` (commits
nothing), and a `kv.delete` whose key is in `deleteThrowKeys` rejects. -/
structure Kv where
  entries : List KvEntry
  counter : Nat
  setThrowKeys : List Key
  setOkFalseKeys : List Key
  deleteThrowKeys : List Key
deriving DecidableEq, Repr

/-- Outcome of a single `kv.set` call. -/
inductive SetOutcome where
  | threw
  | committed (ok : Bool) (ver : Nat)
deriving DecidableEq, Repr

/-- The store never fails: all failure oracles are empty. -/
def Kv.reliable (st : Kv) : Prop :=
  st.setThrowKeys = [] ∧ st.setOkFalseKeys = [] ∧ st.deleteThrowKeys = []

instance (st : Kv) : Decidable st.reliable := by
  unfold Kv.reliable; infer_instance

/-- kv.get. -/
def Kv.get (st : Kv) (k : Key) : Option (Record × Nat) :=
  lookupE st.entries k

/-- kv.set: assigns the next versionstamp on commit. -/
def Kv.set (st : Kv) (k : Key) (v : Record) : Kv × SetOutcome :=
  if k ∈ st.setThrowKeys then (st, SetOutcome.threw)
  else if k ∈ st.setOkFalseKeys then (st, SetOutcome.committed false 0)
  else
    ({ st with
        entries := insertEntry k v st.counter st.entries,
        counter := st.counter + 1 },
      SetOutcome.committed true st.counter)

/-- kv.delete (idempotent); the boolean reports a rejected call. -/
def Kv.del (st : Kv) (k : Key) : Kv × Bool :=
  if k ∈ st.deleteThrowKeys then (st, true)
  else ({ st with entries := st.entries.filter (fun e => decide (e.1 ≠ k)) },
    false)

/-- Strict-extension test used by Deno.Kv prefix selectors: matched keys
start with the given components and are strictly longer. -/
def keyExtends (p k : Key) : Bool :=
  p.isPrefixOf k && decide (p.length < k.length)

/-- kv.list with a prefix selector: all entries whose key strictly extends
the given components, in store order. -/
def Kv.scanUnder (st : Kv) (p : Key) : List KvEntry :=
  st.entries.filter (fun e => keyExtends p e.1)

/-- Last key component, as in `item.key.at(-1)`. -/
def lastD (k : Key) : String := k.getLastD ""

/-- The empty store with no failures configured. -/
def emptyKv : Kv := ⟨[], 0, [], [], []⟩

theorem lookupE_insertEntry (k : Key) (v : Record) (ver : Nat)
    (es : List KvEntry) (k2 : Key) :
    lookupE (insertEntry k v ver es) k2 =
      if k2 = k then some (v, ver) else lookupE es k2 := by
  induction es with
  | nil =>
      by_cases h : k2 = k
      · subst h; simp [insertEntry, lookupE]
      · simp [insertEntry, lookupE, h, Ne.symm h]
  | cons e es ih =>
      simp only [insertEntry]
      by_cases hlt : keyLt k e.1 = true
      · rw [if_pos hlt]
        by_cases h : k2 = k
        · subst h; simp [lookupE]
        · simp [lookupE, h, Ne.symm h]
      · rw [if_neg hlt]
        by_cases he : e.1 = k
        · rw [if_pos he]
          by_cases h : k2 = k
          · subst h; simp [lookupE]
          · have hne : e.1 ≠ k2 := by rw [he]; exact fun hh => h hh.symm
            simp [lookupE, h, Ne.symm h, hne]
        · rw [if_neg he]
          by_cases h2 : e.1 = k2
          · have hne : ¬k2 = k := fun hh => he (h2.trans hh)
            simp [lookupE, h2, hne]
          · simp [lookupE, h2, ih]

theorem lookupE_filterNe (es : List KvEntry) (k k2 : Key) :
    lookupE (es.filter (fun e => decide (e.1 ≠ k))) k2 =
      if k2 = k then none else lookupE es k2 := by
  induction es with
  | nil => simp [lookupE]
  | cons e es ih =>
      by_cases he : e.1 = k
      · rw [List.filter_cons_of_neg (by simp [he]), ih]
        by_cases h2 : e.1 = k2
        · have : k2 = k := h2 ▸ he
          simp [lookupE, this, he]
        · simp [lookupE, h2]
      · rw [List.filter_cons_of_pos (by simp [he])]
        by_cases h2 : e.1 = k2
        · subst h2
          simp [lookupE, he]
        · simp only [lookupE, if_neg h2]
          exact ih

theorem lookupE_some_mem (es : List KvEntry) (k : Key) (val : Record × Nat)
    (h : lookupE es k = some val) : (k, val) ∈ es := by
  induction es with
  | nil => simp [lookupE] at h
  | cons e es ih =>
      by_cases he : e.1 = k
      · simp only [lookupE, if_pos he] at h
        have : e = (k, val) := by
          cases e
          simp_all
        rw [← this]
        exact List.mem_cons_self _ _
      · simp only [lookupE, if_neg he] at h
        exact List.mem_cons_of_mem _ (ih h)

theorem mem_lookupE_isSome (es : List KvEntry) (e : KvEntry)
    (h : e ∈ es) : (lookupE es e.1).isSome := by
  induction es with
  | nil => simp at h
  | cons e2 es ih =>
      by_cases he : e2.1 = e.1
      · simp [lookupE, he]
      · rcases List.mem_cons.mp h with h1 | h1
        · subst h1; simp at he
        · simp [lookupE, he, ih h1]

/-! ### The collection engine (class RESTfulCollection) -/

/-- Suffix appended to the collection name to form the secondary-index
key space. -/
def secondaryIndexSuffix : String := "$$secondaryIndex"

/-- A collection: its name and the registered secondary indexes, each a
named keyBuilder mapping a record to index key parts.  The unique-id
generator is external; the generated id is passed to `append`
explicitly. -/
structure RESTfulCollection where
  name : String
  secondaryIndexes : List (String × (Record → List String))

/-- The primary storage key of a record. -/
def primaryKey (c : RESTfulCollection) (id : String) : Key :=
  [c.name, id]

/-- First component of every secondary-index key of the collection. -/
def idxHead (c : RESTfulCollection) : String :=
  c.name ++ secondaryIndexSuffix

/-- A full secondary-index entry key
`[collection+suffix, indexName, ...keyParts, id]`. -/
def indexEntryKey (c : RESTfulCollection) (n : String) (kp : List String)
    (id : String) : Key :=
  idxHead c :: n :: (kp ++ [id])

/-- buildSecondaryKeys: one index entry key per registered index, derived
from the given record value. -/
def buildSecondaryKeys (c : RESTfulCollection) (id : String) (v : Record) :
    List Key :=
  c.secondaryIndexes.map (fun p => indexEntryKey c p.1 (p.2 v) id)

/-- Issue kv.set with the empty marker value on each key (the fan-out of
appendSecondaryKeys); all writes are attempted, and the flag records
whether any call rejected. -/
def setAllMarkers (st : Kv) : List Key → Kv × Bool
  | [] => (st, false)
  | k :: ks =>
      let r1 := st.set k []
      let threw1 := match r1.2 with
        | SetOutcome.threw => true
        | SetOutcome.committed _ _ => false
      let r2 := setAllMarkers r1.1 ks
      (r2.1, threw1 || r2.2)

/-- Issue kv.delete on each key (the fan-out of deleteSecondaryKeys);
all deletes are attempted, and the flag records whether any call
rejected. -/
def deleteAllKeys (st : Kv) : List Key → Kv × Bool
  | [] => (st, false)
  | k :: ks =>
      let r1 := st.del k
      let r2 := deleteAllKeys r1.1 ks
      (r2.1, r1.2 || r2.2)

/-- appendSecondaryKeys: write one index entry per registered index for
the record value. -/
def appendSecondaryKeys (c : RESTfulCollection) (st : Kv) (id : String)
    (v : Record) : Kv × Bool :=
  setAllMarkers st (buildSecondaryKeys c id v)

/-- deleteSecondaryKeys: delete the index entries derived from the record
value. -/
def deleteSecondaryKeys (c : RESTfulCollection) (st : Kv) (id : String)
    (v : Record) : Kv × Bool :=
  deleteAllKeys st (buildSecondaryKeys c id v)

/-- get(id): metadata-augmented record or the not-found sentinel. -/
def RESTfulCollection.get (c : RESTfulCollection) (st : Kv) (id : String) :
    Option Record :=
  match st.get (primaryKey c id) with
  | none => none
  | some (v, ver) => some (withMetadata id ver v)

/-- list(): metadata-augmented records for every key under the
collection's primary prefix, in store order. -/
def RESTfulCollection.list (c : RESTfulCollection) (st : Kv) : List Record :=
  (st.scanUnder [c.name]).map
    (fun e => withMetadata (lastD e.1) e.2.2 e.2.1)

/-- listSubcollection(subcollection, keys): scan the index prefix, fetch
each trailing id's primary record, and silently skip ids whose primary
record is missing. -/
def RESTfulCollection.listSubcollection (c : RESTfulCollection) (st : Kv)
    (sub : String) (keys : List String) : List Record :=
  (st.scanUnder (idxHead c :: sub :: keys)).filterMap
    (fun e =>
      match st.get (primaryKey c (lastD e.1)) with
      | none => none
      | some (v, ver) => some (withMetadata (lastD e.1) ver v))

/-- append(value): write the primary key under the freshly generated id,
then fan out the secondary index writes. -/
def RESTfulCollection.append (c : RESTfulCollection) (st : Kv) (id : String)
    (v : Record) : Kv × Except String Record :=
  match st.set (primaryKey c id) v with
  | (st1, SetOutcome.threw) => (st1, Except.error "kv.set rejected")
  | (st1, SetOutcome.committed false _) =>
      (st1, Except.error "Cannot append value.")
  | (st1, SetOutcome.committed true ver) =>
      let r := appendSecondaryKeys c st1 id v
      if r.2 then (r.1, Except.error "kv.set rejected")
      else (r.1, Except.ok (withMetadata id ver v))

/-- replace(id, value): read the old record (not-found sentinel when
absent), write the new record at the primary key, delete the index
entries of the old record, write those of the new record. -/
def RESTfulCollection.replace (c : RESTfulCollection) (st : Kv) (id : String)
    (v : Record) : Kv × Except String (Option Record) :=
  match st.get (primaryKey c id) with
  | none => (st, Except.ok none)
  | some (oldValue, _) =>
      match st.set (primaryKey c id) v with
      | (st1, SetOutcome.threw) => (st1, Except.error "kv.set rejected")
      | (st1, SetOutcome.committed false _) =>
          (st1, Except.error "Cannot replace value.")
      | (st1, SetOutcome.committed true ver) =>
          let rd := deleteSecondaryKeys c st1 id oldValue
          if rd.2 then (rd.1, Except.error "kv.delete rejected")
          else
            let ra := appendSecondaryKeys c rd.1 id v
            if ra.2 then (ra.1, Except.error "kv.set rejected")
            else (ra.1, Except.ok (some (withMetadata id ver v)))

/-- merge(id, mergeValue): like replace, with the stored value the JS
shallow spread of the old record and the partial record. -/
def RESTfulCollection.merge (c : RESTfulCollection) (st : Kv) (id : String)
    (mergeValue : Record) : Kv × Except String (Option Record) :=
  match st.get (primaryKey c id) with
  | none => (st, Except.ok none)
  | some (oldValue, _) =>
      let value := spreadFields oldValue mergeValue
      match st.set (primaryKey c id) value with
      | (st1, SetOutcome.threw) => (st1, Except.error "kv.set rejected")
      | (st1, SetOutcome.committed false _) =>
          (st1, Except.error "Cannot replace value.")
      | (st1, SetOutcome.committed true ver) =>
          let rd := deleteSecondaryKeys c st1 id oldValue
          if rd.2 then (rd.1, Except.error "kv.delete rejected")
          else
            let ra := appendSecondaryKeys c rd.1 id value
            if ra.2 then (ra.1, Except.error "kv.set rejected")
            else (ra.1, Except.ok (some (withMetadata id ver value)))

/-- delete(id): read the old record (not-found sentinel when absent),
delete the primary key, delete the index entries derived from the old
record, and return the old record with its pre-deletion versionstamp. -/
def RESTfulCollection.delete (c : RESTfulCollection) (st : Kv) (id : String) :
    Kv × Except String (Option Record) :=
  match st.get (primaryKey c id) with
  | none => (st, Except.ok none)
  | some (oldValue, ver) =>
      let r1 := st.del (primaryKey c id)
      if r1.2 then (r1.1, Except.error "kv.delete rejected")
      else
        let rd := deleteSecondaryKeys c r1.1 id oldValue
        if rd.2 then (rd.1, Except.error "kv.delete rejected")
        else (rd.1, Except.ok (some (withMetadata id ver oldValue)))

/-! ### Operation sequences -/

/-- One mutating engine call; `append` carries the id produced by the
configured id generator. -/
inductive Op where
  | append (id : String) (v : Record)
  | replace (id : String) (v : Record)
  | merge (id : String) (v : Record)
  | delete (id : String)

/-- Run one operation, returning the new store and whether the call
completed without a propagated failure. -/
def opStep (c : RESTfulCollection) (st : Kv) : Op → Kv × Bool
  | Op.append id v =>
      let r := RESTfulCollection.append c st id v
      (r.1, match r.2 with | Except.ok _ => true | Except.error _ => false)
  | Op.replace id v =>
      let r := RESTfulCollection.replace c st id v
      (r.1, match r.2 with | Except.ok _ => true | Except.error _ => false)
  | Op.merge id v =>
      let r := RESTfulCollection.merge c st id v
      (r.1, match r.2 with | Except.ok _ => true | Except.error _ => false)
  | Op.delete id =>
      let r := RESTfulCollection.delete c st id
      (r.1, match r.2 with | Except.ok _ => true | Except.error _ => false)

/-- Run a sequence of operations. -/
def runOps (c : RESTfulCollection) (st : Kv) : List Op → Kv
  | [] => st
  | op :: ops => runOps c (opStep c st op).1 ops

/-- Every operation in a sequence completes successfully, and every
append uses a fresh id (the contract of the collision-resistant id
generator). -/
def opsOk (c : RESTfulCollection) (st : Kv) : List Op → Bool
  | [] => true
  | op :: ops =>
      (match op with
        | Op.append id _ => (lookupE st.entries (primaryKey c id)).isNone
        | _ => true) &&
      (opStep c st op).2 && opsOk c (opStep c st op).1 ops

/-! ### Basic lemmas about the store operations -/

theorem set_oracle_fields (st : Kv) (k : Key) (v : Record) :
    (st.set k v).1.setThrowKeys = st.setThrowKeys ∧
    (st.set k v).1.setOkFalseKeys = st.setOkFalseKeys ∧
    (st.set k v).1.deleteThrowKeys = st.deleteThrowKeys := by
  unfold Kv.set
  split <;> [skip; split] <;> simp

theorem del_oracle_fields (st : Kv) (k : Key) :
    (st.del k).1.setThrowKeys = st.setThrowKeys ∧
    (st.del k).1.setOkFalseKeys = st.setOkFalseKeys ∧
    (st.del k).1.deleteThrowKeys = st.deleteThrowKeys := by
  unfold Kv.del
  split <;> simp

theorem set_reliable_pres (st : Kv) (k : Key) (v : Record)
    (h : st.reliable) : (st.set k v).1.reliable := by
  obtain ⟨h1, h2, h3⟩ := set_oracle_fields st k v
  exact ⟨h1.trans h.1, h2.trans h.2.1, h3.trans h.2.2⟩

theorem del_reliable_pres (st : Kv) (k : Key) (h : st.reliable) :
    (st.del k).1.reliable := by
  obtain ⟨h1, h2, h3⟩ := del_oracle_fields st k
  exact ⟨h1.trans h.1, h2.trans h.2.1, h3.trans h.2.2⟩

theorem set_committed_true_inv (st st1 : Kv) (k : Key) (v : Record) (ver : Nat)
    (h : st.set k v = (st1, SetOutcome.committed true ver)) :
    ver = st.counter ∧
    lookupE st1.entries k = some (v, st.counter) ∧
    (∀ k2, k2 ≠ k → lookupE st1.entries k2 = lookupE st.entries k2) ∧
    st1.counter = st.counter + 1 ∧
    st1.setThrowKeys = st.setThrowKeys ∧
    st1.setOkFalseKeys = st.setOkFalseKeys ∧
    st1.deleteThrowKeys = st.deleteThrowKeys := by
  unfold Kv.set at h
  by_cases ht : k ∈ st.setThrowKeys
  · simp [ht] at h
  · by_cases ho : k ∈ st.setOkFalseKeys
    · simp [ht, ho] at h
    · simp only [if_neg ht, if_neg ho, Prod.mk.injEq,
        SetOutcome.committed.injEq] at h
      obtain ⟨hst, _, hver⟩ := h
      subst hver
      refine ⟨rfl, ?_, ?_, ?_, ?_, ?_, ?_⟩ <;>
        simp [← hst, lookupE_insertEntry]
      intro k2 hk2
      simp [hk2]

theorem lookupE_set_other (st : Kv) (k k2 : Key) (v : Record)
    (hne : k2 ≠ k) :
    lookupE (st.set k v).1.entries k2 = lookupE st.entries k2 := by
  unfold Kv.set
  split
  · rfl
  · split
    · rfl
    · simp [lookupE_insertEntry, hne]

theorem set_reliable_eq (st : Kv) (k : Key) (v : Record) (h : st.reliable) :
    st.set k v =
      ({ st with
          entries := insertEntry k v st.counter st.entries,
          counter := st.counter + 1 },
        SetOutcome.committed true st.counter) := by
  unfold Kv.set
  simp [h.1, h.2.1]

theorem set_threw_iff (st : Kv) (k : Key) (v : Record) :
    (st.set k v).2 = SetOutcome.threw ↔ k ∈ st.setThrowKeys := by
  unfold Kv.set
  by_cases ht : k ∈ st.setThrowKeys
  · simp [ht]
  · by_cases ho : k ∈ st.setOkFalseKeys <;> simp [ht, ho]

theorem del_threw_iff (st : Kv) (k : Key) :
    (st.del k).2 = true ↔ k ∈ st.deleteThrowKeys := by
  unfold Kv.del
  by_cases ht : k ∈ st.deleteThrowKeys <;> simp [ht]

theorem lookupE_del_other (st : Kv) (k k2 : Key) (hne : k2 ≠ k) :
    lookupE (st.del k).1.entries k2 = lookupE st.entries k2 := by
  unfold Kv.del
  by_cases ht : k ∈ st.deleteThrowKeys
  · rw [if_pos ht]
  · rw [if_neg ht]
    show lookupE (st.entries.filter (fun e => decide (e.1 ≠ k))) k2 = _
    rw [lookupE_filterNe]
    simp [hne]

theorem lookupE_del_self (st : Kv) (k : Key)
    (h : (st.del k).2 = false) :
    lookupE (st.del k).1.entries k = none := by
  unfold Kv.del at h ⊢
  by_cases ht : k ∈ st.deleteThrowKeys
  · simp [ht] at h
  · rw [if_neg ht]
    show lookupE (st.entries.filter (fun e => decide (e.1 ≠ k))) k = none
    rw [lookupE_filterNe]
    simp

/-! ### The index write/delete fan-outs -/

theorem setAll_oracles (st : Kv) (ks : List Key) :
    (setAllMarkers st ks).1.setThrowKeys = st.setThrowKeys ∧
    (setAllMarkers st ks).1.setOkFalseKeys = st.setOkFalseKeys ∧
    (setAllMarkers st ks).1.deleteThrowKeys = st.deleteThrowKeys := by
  induction ks generalizing st with
  | nil => exact ⟨rfl, rfl, rfl⟩
  | cons k ks ih =>
      obtain ⟨h1, h2, h3⟩ := set_oracle_fields st k []
      obtain ⟨g1, g2, g3⟩ := ih (st.set k []).1
      exact ⟨g1.trans h1, g2.trans h2, g3.trans h3⟩

theorem deleteAll_oracles (st : Kv) (ks : List Key) :
    (deleteAllKeys st ks).1.setThrowKeys = st.setThrowKeys ∧
    (deleteAllKeys st ks).1.setOkFalseKeys = st.setOkFalseKeys ∧
    (deleteAllKeys st ks).1.deleteThrowKeys = st.deleteThrowKeys := by
  induction ks generalizing st with
  | nil => exact ⟨rfl, rfl, rfl⟩
  | cons k ks ih =>
      obtain ⟨h1, h2, h3⟩ := del_oracle_fields st k
      obtain ⟨g1, g2, g3⟩ := ih (st.del k).1
      exact ⟨g1.trans h1, g2.trans h2, g3.trans h3⟩

theorem setAll_reliable_pres (st : Kv) (ks : List Key) (h : st.reliable) :
    (setAllMarkers st ks).1.reliable := by
  obtain ⟨h1, h2, h3⟩ := setAll_oracles st ks
  exact ⟨h1.trans h.1, h2.trans h.2.1, h3.trans h.2.2⟩

theorem deleteAll_reliable_pres (st : Kv) (ks : List Key) (h : st.reliable) :
    (deleteAllKeys st ks).1.reliable := by
  obtain ⟨h1, h2, h3⟩ := deleteAll_oracles st ks
  exact ⟨h1.trans h.1, h2.trans h.2.1, h3.trans h.2.2⟩

theorem lookupE_setAll_not_mem (st : Kv) (ks : List Key) (k : Key)
    (h : k ∉ ks) :
    lookupE (setAllMarkers st ks).1.entries k = lookupE st.entries k := by
  induction ks generalizing st with
  | nil => rfl
  | cons k0 ks ih =>
      have hne : k ≠ k0 := fun hh => h (hh ▸ List.mem_cons_self k0 ks)
      have htl : k ∉ ks := fun hh => h (List.mem_cons_of_mem _ hh)
      calc lookupE (setAllMarkers (st.set k0 []).1 ks).1.entries k
          = lookupE (st.set k0 []).1.entries k := ih _ htl
        _ = lookupE st.entries k := lookupE_set_other st k0 k [] hne

theorem lookupE_deleteAll_not_mem (st : Kv) (ks : List Key) (k : Key)
    (h : k ∉ ks) :
    lookupE (deleteAllKeys st ks).1.entries k = lookupE st.entries k := by
  induction ks generalizing st with
  | nil => rfl
  | cons k0 ks ih =>
      have hne : k ≠ k0 := fun hh => h (hh ▸ List.mem_cons_self k0 ks)
      have htl : k ∉ ks := fun hh => h (List.mem_cons_of_mem _ hh)
      calc lookupE (deleteAllKeys (st.del k0).1 ks).1.entries k
          = lookupE (st.del k0).1.entries k := ih _ htl
        _ = lookupE st.entries k := lookupE_del_other st k0 k hne

theorem setAll_threw_iff (st : Kv) (ks : List Key) :
    (setAllMarkers st ks).2 = true ↔ ∃ k ∈ ks, k ∈ st.setThrowKeys := by
  induction ks generalizing st with
  | nil => simp [setAllMarkers]
  | cons k0 ks ih =>
      have horc := (set_oracle_fields st k0 []).1
      constructor
      · intro h
        simp only [setAllMarkers, Bool.or_eq_true] at h
        rcases h with h | h
        · refine ⟨k0, List.mem_cons_self _ _, ?_⟩
          rw [← set_threw_iff st k0 []]
          revert h
          cases (st.set k0 []).2 <;> simp
        · obtain ⟨k, hk, hk2⟩ := (ih (st.set k0 []).1).mp h
          exact ⟨k, List.mem_cons_of_mem _ hk, horc ▸ hk2⟩
      · rintro ⟨k, hk, hthrow⟩
        simp only [setAllMarkers, Bool.or_eq_true]
        rcases List.mem_cons.mp hk with rfl | hk
        · left
          have := (set_threw_iff st k []).mpr hthrow
          rw [this]
        · right
          exact (ih (st.set k0 []).1).mpr ⟨k, hk, horc.symm ▸ hthrow⟩

theorem deleteAll_threw_iff (st : Kv) (ks : List Key) :
    (deleteAllKeys st ks).2 = true ↔ ∃ k ∈ ks, k ∈ st.deleteThrowKeys := by
  induction ks generalizing st with
  | nil => simp [deleteAllKeys]
  | cons k0 ks ih =>
      have horc := (del_oracle_fields st k0).2.2
      constructor
      · intro h
        simp only [deleteAllKeys, Bool.or_eq_true] at h
        rcases h with h | h
        · exact ⟨k0, List.mem_cons_self _ _, (del_threw_iff st k0).mp h⟩
        · obtain ⟨k, hk, hk2⟩ := (ih (st.del k0).1).mp h
          exact ⟨k, List.mem_cons_of_mem _ hk, horc ▸ hk2⟩
      · rintro ⟨k, hk, hthrow⟩
        simp only [deleteAllKeys, Bool.or_eq_true]
        rcases List.mem_cons.mp hk with rfl | hk
        · exact Or.inl ((del_threw_iff st k).mpr hthrow)
        · exact Or.inr ((ih (st.del k0).1).mpr ⟨k, hk, horc.symm ▸ hthrow⟩)

theorem lookupE_set_self_reliable (st : Kv) (k : Key) (v : Record)
    (h : st.reliable) :
    lookupE (st.set k v).1.entries k = some (v, st.counter) := by
  rw [set_reliable_eq st k v h]
  simp [lookupE_insertEntry]

theorem lookupE_setAll_mem (st : Kv) (ks : List Key) (k : Key)
    (h : st.reliable) (hm : k ∈ ks) :
    ∃ ver, lookupE (setAllMarkers st ks).1.entries k = some ([], ver) := by
  induction ks generalizing st with
  | nil => simp at hm
  | cons k0 ks ih =>
      by_cases htl : k ∈ ks
      · exact ih (st.set k0 []).1 (set_reliable_pres st k0 [] h) htl
      · have hk0 : k = k0 := by
          rcases List.mem_cons.mp hm with h1 | h1
          · exact h1
          · exact absurd h1 htl
        subst hk0
        refine ⟨st.counter, ?_⟩
        show lookupE (setAllMarkers (st.set k []).1 ks).1.entries k = _
        rw [lookupE_setAll_not_mem _ ks k htl]
        exact lookupE_set_self_reliable st k [] h

theorem lookupE_deleteAll_mem (st : Kv) (ks : List Key) (k : Key)
    (h : st.reliable) (hm : k ∈ ks) :
    lookupE (deleteAllKeys st ks).1.entries k = none := by
  induction ks generalizing st with
  | nil => simp at hm
  | cons k0 ks ih =>
      by_cases htl : k ∈ ks
      · exact ih (st.del k0).1 (del_reliable_pres st k0 h) htl
      · have hk0 : k = k0 := by
          rcases List.mem_cons.mp hm with h1 | h1
          · exact h1
          · exact absurd h1 htl
        subst hk0
        show lookupE (deleteAllKeys (st.del k).1 ks).1.entries k = _
        rw [lookupE_deleteAll_not_mem _ ks k htl]
        apply lookupE_del_self
        unfold Kv.del
        simp [h.2.2]

theorem setAll_threw_reliable (st : Kv) (ks : List Key) (h : st.reliable) :
    (setAllMarkers st ks).2 = false := by
  rw [← Bool.not_eq_true, setAll_threw_iff]
  simp [h.1]

theorem deleteAll_threw_reliable (st : Kv) (ks : List Key) (h : st.reliable) :
    (deleteAllKeys st ks).2 = false := by
  rw [← Bool.not_eq_true, deleteAll_threw_iff]
  simp [h.2.2]

/-! ### Key-space disjointness and decomposition -/

theorem append_suffix_ne (s : String) : s ++ secondaryIndexSuffix ≠ s := by
  intro h
  have := congrArg String.length h
  simp [String.length_append, secondaryIndexSuffix] at this
  exact absurd this (by decide)

theorem idxHead_ne_name (c : RESTfulCollection) : idxHead c ≠ c.name :=
  append_suffix_ne c.name

theorem indexEntryKey_ne_primaryKey (c : RESTfulCollection) (n : String)
    (kp : List String) (id id2 : String) :
    indexEntryKey c n kp id ≠ primaryKey c id2 := by
  intro h
  simp only [indexEntryKey, primaryKey, List.cons.injEq] at h
  exact idxHead_ne_name c h.1

theorem indexEntryKey_inj (c : RESTfulCollection) (n n2 : String)
    (kp kp2 : List String) (id id2 : String)
    (h : indexEntryKey c n kp id = indexEntryKey c n2 kp2 id2) :
    n = n2 ∧ kp = kp2 ∧ id = id2 := by
  simp only [indexEntryKey, List.cons.injEq] at h
  obtain ⟨-, hn, happ⟩ := h
  have hl : kp.length = kp2.length := by
    have := congrArg List.length happ
    simpa using this
  have h2 := List.append_inj happ hl
  exact ⟨hn, h2.1, by simpa using h2.2⟩

theorem lastD_indexEntryKey (c : RESTfulCollection) (n : String)
    (kp : List String) (id : String) :
    lastD (indexEntryKey c n kp id) = id := by
  unfold lastD indexEntryKey
  rw [show idxHead c :: n :: (kp ++ [id]) = (idxHead c :: n :: kp) ++ [id]
    from by simp]
  rw [List.getLastD_concat]

theorem mem_buildSecondaryKeys (c : RESTfulCollection) (id : String)
    (v : Record) (k : Key) :
    k ∈ buildSecondaryKeys c id v ↔
      ∃ n kb, (n, kb) ∈ c.secondaryIndexes ∧ k = indexEntryKey c n (kb v) id := by
  simp only [buildSecondaryKeys, List.mem_map]
  constructor
  · rintro ⟨⟨n, kb⟩, hmem, rfl⟩
    exact ⟨n, kb, hmem, rfl⟩
  · rintro ⟨n, kb, hmem, rfl⟩
    exact ⟨(n, kb), hmem, rfl⟩

theorem primaryKey_not_mem_build (c : RESTfulCollection) (id id2 : String)
    (v : Record) : primaryKey c id2 ∉ buildSecondaryKeys c id v := by
  intro h
  obtain ⟨n, kb, -, hk⟩ := (mem_buildSecondaryKeys c id v _).mp h
  exact indexEntryKey_ne_primaryKey c n (kb v) id id2 hk.symm

theorem indexEntryKey_mem_build (c : RESTfulCollection) (n : String)
    (kp : List String) (id id2 : String) (v : Record)
    (h : indexEntryKey c n kp id2 ∈ buildSecondaryKeys c id v) :
    id2 = id ∧ ∃ kb, (n, kb) ∈ c.secondaryIndexes ∧ kp = kb v := by
  obtain ⟨n2, kb, hmem, hk⟩ := (mem_buildSecondaryKeys c id v _).mp h
  obtain ⟨hn, hkp, hid⟩ := indexEntryKey_inj c n n2 kp (kb v) id2 id hk
  exact ⟨hid, kb, hn ▸ hmem, hkp⟩

theorem nodup_assoc_unique {β : Type} (l : List (String × β))
    (h : (l.map Prod.fst).Nodup) (n : String) (a b : β)
    (ha : (n, a) ∈ l) (hb : (n, b) ∈ l) : a = b := by
  induction l with
  | nil => simp at ha
  | cons p ps ih =>
      simp only [List.map_cons, List.nodup_cons] at h
      rcases List.mem_cons.mp ha with h1 | h1 <;>
        rcases List.mem_cons.mp hb with h2 | h2
      · rw [← h2] at h1
        exact congrArg Prod.snd h1
      · exfalso
        apply h.1
        have hp : p.1 = n := by rw [← h1]
        rw [hp]
        exact List.mem_map_of_mem Prod.fst h2
      · exfalso
        apply h.1
        have hp : p.1 = n := by rw [← h2]
        rw [hp]
        exact List.mem_map_of_mem Prod.fst h1
      · exact ih h.2 h1 h2

/-! ### Not-found behaviour and the merge/replace relationship -/

theorem replace_not_found (c : RESTfulCollection) (st : Kv) (id : String)
    (v : Record) (h : st.get (primaryKey c id) = none) :
    RESTfulCollection.replace c st id v = (st, Except.ok none) := by
  unfold RESTfulCollection.replace
  rw [h]

theorem merge_not_found (c : RESTfulCollection) (st : Kv) (id : String)
    (mv : Record) (h : st.get (primaryKey c id) = none) :
    RESTfulCollection.merge c st id mv = (st, Except.ok none) := by
  unfold RESTfulCollection.merge
  rw [h]

theorem delete_not_found (c : RESTfulCollection) (st : Kv) (id : String)
    (h : st.get (primaryKey c id) = none) :
    RESTfulCollection.delete c st id = (st, Except.ok none) := by
  unfold RESTfulCollection.delete
  rw [h]

theorem merge_eq_replace (c : RESTfulCollection) (st : Kv) (id : String)
    (mv old : Record) (ver0 : Nat)
    (h : st.get (primaryKey c id) = some (old, ver0)) :
    RESTfulCollection.merge c st id mv =
      RESTfulCollection.replace c st id (spreadFields old mv) := by
  unfold RESTfulCollection.merge RESTfulCollection.replace
  rw [h]

/-! ### Effect of each successful operation on the store -/

theorem append_reliable_char (c : RESTfulCollection) (st : Kv) (id : String)
    (v : Record) (h : st.reliable) :
    ∃ st2, RESTfulCollection.append c st id v =
        (st2, Except.ok (withMetadata id st.counter v)) ∧
      st2.reliable ∧
      lookupE st2.entries (primaryKey c id) = some (v, st.counter) ∧
      (∀ k, k ∈ buildSecondaryKeys c id v →
        ∃ ver, lookupE st2.entries k = some ([], ver)) ∧
      (∀ k, k ≠ primaryKey c id → k ∉ buildSecondaryKeys c id v →
        lookupE st2.entries k = lookupE st.entries k) := by
  set st1 : Kv :=
    { st with
        entries := insertEntry (primaryKey c id) v st.counter st.entries,
        counter := st.counter + 1 } with hst1
  have h1 : st1.reliable := ⟨h.1, h.2.1, h.2.2⟩
  have hthrew : (appendSecondaryKeys c st1 id v).2 = false :=
    setAll_threw_reliable st1 _ h1
  have happ : RESTfulCollection.append c st id v =
      ((setAllMarkers st1 (buildSecondaryKeys c id v)).1,
        Except.ok (withMetadata id st.counter v)) := by
    unfold RESTfulCollection.append
    rw [set_reliable_eq st (primaryKey c id) v h]
    simp only [appendSecondaryKeys] at hthrew
    simp [appendSecondaryKeys, hthrew]
  refine ⟨(setAllMarkers st1 (buildSecondaryKeys c id v)).1, happ,
    setAll_reliable_pres st1 _ h1, ?_, ?_, ?_⟩
  · rw [lookupE_setAll_not_mem _ _ _ (primaryKey_not_mem_build c id id v)]
    show lookupE (insertEntry (primaryKey c id) v st.counter st.entries)
      (primaryKey c id) = _
    rw [lookupE_insertEntry]
    simp
  · intro k hk
    exact lookupE_setAll_mem st1 _ k h1 hk
  · intro k hkp hkb
    rw [lookupE_setAll_not_mem _ _ _ hkb]
    show lookupE (insertEntry (primaryKey c id) v st.counter st.entries) k = _
    rw [lookupE_insertEntry]
    simp [hkp]

theorem replace_reliable_char (c : RESTfulCollection) (st : Kv) (id : String)
    (v old : Record) (ver0 : Nat) (h : st.reliable)
    (hold : st.get (primaryKey c id) = some (old, ver0)) :
    ∃ st2, RESTfulCollection.replace c st id v =
        (st2, Except.ok (some (withMetadata id st.counter v))) ∧
      st2.reliable ∧
      lookupE st2.entries (primaryKey c id) = some (v, st.counter) ∧
      (∀ k, k ∈ buildSecondaryKeys c id v →
        ∃ ver, lookupE st2.entries k = some ([], ver)) ∧
      (∀ k, k ∈ buildSecondaryKeys c id old → k ∉ buildSecondaryKeys c id v →
        lookupE st2.entries k = none) ∧
      (∀ k, k ≠ primaryKey c id → k ∉ buildSecondaryKeys c id old →
        k ∉ buildSecondaryKeys c id v →
        lookupE st2.entries k = lookupE st.entries k) := by
  set st1 : Kv :=
    { st with
        entries := insertEntry (primaryKey c id) v st.counter st.entries,
        counter := st.counter + 1 } with hst1
  have h1 : st1.reliable := ⟨h.1, h.2.1, h.2.2⟩
  set stD : Kv := (deleteAllKeys st1 (buildSecondaryKeys c id old)).1 with hstD
  have hD : stD.reliable := deleteAll_reliable_pres st1 _ h1
  have hthrewD : (deleteSecondaryKeys c st1 id old).2 = false :=
    deleteAll_threw_reliable st1 _ h1
  have hthrewA : (appendSecondaryKeys c stD id v).2 = false :=
    setAll_threw_reliable stD _ hD
  have happ : RESTfulCollection.replace c st id v =
      ((setAllMarkers stD (buildSecondaryKeys c id v)).1,
        Except.ok (some (withMetadata id st.counter v))) := by
    unfold RESTfulCollection.replace
    rw [hold, set_reliable_eq st (primaryKey c id) v h]
    simp only [deleteSecondaryKeys] at hthrewD
    simp only [appendSecondaryKeys] at hthrewA
    simp [deleteSecondaryKeys, appendSecondaryKeys, hthrewD, hthrewA]
  refine ⟨(setAllMarkers stD (buildSecondaryKeys c id v)).1, happ,
    setAll_reliable_pres stD _ hD, ?_, ?_, ?_, ?_⟩
  · rw [lookupE_setAll_not_mem _ _ _ (primaryKey_not_mem_build c id id v),
      lookupE_deleteAll_not_mem _ _ _ (primaryKey_not_mem_build c id id old)]
    show lookupE (insertEntry (primaryKey c id) v st.counter st.entries)
      (primaryKey c id) = _
    rw [lookupE_insertEntry]
    simp
  · intro k hk
    exact lookupE_setAll_mem stD _ k hD hk
  · intro k hkOld hkNew
    rw [lookupE_setAll_not_mem _ _ _ hkNew]
    exact lookupE_deleteAll_mem st1 _ k h1 hkOld
  · intro k hkp hkOld hkNew
    rw [lookupE_setAll_not_mem _ _ _ hkNew,
      lookupE_deleteAll_not_mem _ _ _ hkOld]
    show lookupE (insertEntry (primaryKey c id) v st.counter st.entries) k = _
    rw [lookupE_insertEntry]
    simp [hkp]

theorem delete_reliable_char (c : RESTfulCollection) (st : Kv) (id : String)
    (old : Record) (ver0 : Nat) (h : st.reliable)
    (hold : st.get (primaryKey c id) = some (old, ver0)) :
    ∃ st2, RESTfulCollection.delete c st id =
        (st2, Except.ok (some (withMetadata id ver0 old))) ∧
      st2.reliable ∧
      lookupE st2.entries (primaryKey c id) = none ∧
      (∀ k, k ∈ buildSecondaryKeys c id old → lookupE st2.entries k = none) ∧
      (∀ k, k ≠ primaryKey c id → k ∉ buildSecondaryKeys c id old →
        lookupE st2.entries k = lookupE st.entries k) := by
  have hdel : (st.del (primaryKey c id)).2 = false := by
    rw [← Bool.not_eq_true, del_threw_iff]
    simp [h.2.2]
  set st1 : Kv := (st.del (primaryKey c id)).1 with hst1
  have h1 : st1.reliable := del_reliable_pres st _ h
  have hthrewD : (deleteSecondaryKeys c st1 id old).2 = false :=
    deleteAll_threw_reliable st1 _ h1
  have happ : RESTfulCollection.delete c st id =
      ((deleteAllKeys st1 (buildSecondaryKeys c id old)).1,
        Except.ok (some (withMetadata id ver0 old))) := by
    unfold RESTfulCollection.delete
    rw [hold]
    simp only [deleteSecondaryKeys] at hthrewD
    simp [deleteSecondaryKeys, hdel, hthrewD]
  refine ⟨(deleteAllKeys st1 (buildSecondaryKeys c id old)).1, happ,
    deleteAll_reliable_pres st1 _ h1, ?_, ?_, ?_⟩
  · rw [lookupE_deleteAll_not_mem _ _ _ (primaryKey_not_mem_build c id id old)]
    exact lookupE_del_self st _ hdel
  · intro k hk
    exact lookupE_deleteAll_mem st1 _ k h1 hk
  · intro k hkp hkOld
    rw [lookupE_deleteAll_not_mem _ _ _ hkOld]
    exact lookupE_del_other st _ k hkp

/-! ### The index-consistency invariant -/

/-- Every key of the store is either a primary record key or a
secondary-index key derived (by a registered keyBuilder) from a record
that is currently live, and conversely every live record has its index
entry for every registered index. -/
def goodState (c : RESTfulCollection) (st : Kv) : Prop :=
  (∀ k val, lookupE st.entries k = some val →
    (∃ id, k = primaryKey c id) ∨
    (∃ n kb id r ver, (n, kb) ∈ c.secondaryIndexes ∧
      lookupE st.entries (primaryKey c id) = some (r, ver) ∧
      k = indexEntryKey c n (kb r) id)) ∧
  (∀ n kb id r ver, (n, kb) ∈ c.secondaryIndexes →
    lookupE st.entries (primaryKey c id) = some (r, ver) →
    (lookupE st.entries (indexEntryKey c n (kb r) id)).isSome = true)

theorem goodState_emptyKv (c : RESTfulCollection) : goodState c emptyKv := by
  constructor
  · intro k val hk
    simp [emptyKv, lookupE] at hk
  · intro n kb id r ver hmem hlive
    simp [emptyKv, lookupE] at hlive

theorem primaryKey_inj (c : RESTfulCollection) (id id2 : String)
    (h : primaryKey c id = primaryKey c id2) : id = id2 := by
  simpa [primaryKey] using h

theorem append_preserves (c : RESTfulCollection) (st : Kv) (id : String)
    (v : Record) (h : st.reliable) (hg : goodState c st)
    (hfresh : lookupE st.entries (primaryKey c id) = none) :
    (RESTfulCollection.append c st id v).1.reliable ∧
      goodState c (RESTfulCollection.append c st id v).1 := by
  obtain ⟨st2, heq, h2rel, hprim, hmem, hframe⟩ := append_reliable_char c st id v h
  rw [heq]
  refine ⟨h2rel, ?_, ?_⟩
  · intro k val hk
    by_cases hkb : k ∈ buildSecondaryKeys c id v
    · obtain ⟨n, kb, hnkb, rfl⟩ := (mem_buildSecondaryKeys _ _ _ _).mp hkb
      exact Or.inr ⟨n, kb, id, v, st.counter, hnkb, hprim, rfl⟩
    · by_cases hkp : k = primaryKey c id
      · exact Or.inl ⟨id, hkp⟩
      · rw [hframe k hkp hkb] at hk
        rcases hg.1 k val hk with ⟨id2, rfl⟩ |
          ⟨n, kb, id2, r, ver, hnkb, hlive, rfl⟩
        · exact Or.inl ⟨id2, rfl⟩
        · refine Or.inr ⟨n, kb, id2, r, ver, hnkb, ?_, rfl⟩
          have hne : id2 ≠ id := by
            intro hh
            rw [hh, hfresh] at hlive
            exact Option.noConfusion hlive
          rw [hframe (primaryKey c id2)
            (fun hh => hne (primaryKey_inj c id2 id hh))
            (primaryKey_not_mem_build c id id2 v)]
          exact hlive
  · intro n kb id2 r ver hnkb hlive
    by_cases hid : id2 = id
    · subst hid
      rw [hprim] at hlive
      have hr : v = r := by
        have := Option.some.inj hlive
        exact congrArg Prod.fst this
      obtain ⟨ver2, hv2⟩ := hmem (indexEntryKey c n (kb v) id2)
        ((mem_buildSecondaryKeys _ _ _ _).mpr ⟨n, kb, hnkb, rfl⟩)
      rw [← hr]
      simp [hv2]
    · have hlive0 : lookupE st.entries (primaryKey c id2) = some (r, ver) := by
        rw [← hframe (primaryKey c id2)
          (fun hh => hid (primaryKey_inj c id2 id hh))
          (primaryKey_not_mem_build c id id2 v)]
        exact hlive
      have hpre := hg.2 n kb id2 r ver hnkb hlive0
      rw [hframe (indexEntryKey c n (kb r) id2)
        (indexEntryKey_ne_primaryKey c n (kb r) id2 id)
        (fun hh => hid ((indexEntryKey_mem_build c n (kb r) id id2 v hh).1))]
      exact hpre

theorem replace_preserves (c : RESTfulCollection) (st : Kv) (id : String)
    (v old : Record) (ver0 : Nat) (h : st.reliable) (hg : goodState c st)
    (hold : st.get (primaryKey c id) = some (old, ver0)) :
    (RESTfulCollection.replace c st id v).1.reliable ∧
      goodState c (RESTfulCollection.replace c st id v).1 := by
  obtain ⟨st2, heq, h2rel, hprim, hmemNew, hdelOld, hframe⟩ :=
    replace_reliable_char c st id v old ver0 h hold
  have holdE : lookupE st.entries (primaryKey c id) = some (old, ver0) := hold
  rw [heq]
  refine ⟨h2rel, ?_, ?_⟩
  · intro k val hk
    by_cases hkNew : k ∈ buildSecondaryKeys c id v
    · obtain ⟨n, kb, hnkb, rfl⟩ := (mem_buildSecondaryKeys _ _ _ _).mp hkNew
      exact Or.inr ⟨n, kb, id, v, st.counter, hnkb, hprim, rfl⟩
    · by_cases hkp : k = primaryKey c id
      · exact Or.inl ⟨id, hkp⟩
      · by_cases hkOld : k ∈ buildSecondaryKeys c id old
        · rw [hdelOld k hkOld hkNew] at hk
          exact Option.noConfusion hk
        · rw [hframe k hkp hkOld hkNew] at hk
          rcases hg.1 k val hk with ⟨id2, rfl⟩ |
            ⟨n, kb, id2, r, ver, hnkb, hlive, rfl⟩
          · exact Or.inl ⟨id2, rfl⟩
          · by_cases hid : id2 = id
            · subst hid
              rw [holdE] at hlive
              have hr : old = r := congrArg Prod.fst (Option.some.inj hlive)
              exfalso
              apply hkOld
              rw [← hr]
              exact (mem_buildSecondaryKeys _ _ _ _).mpr ⟨n, kb, hnkb, rfl⟩
            · refine Or.inr ⟨n, kb, id2, r, ver, hnkb, ?_, rfl⟩
              rw [hframe (primaryKey c id2)
                (fun hh => hid (primaryKey_inj c id2 id hh))
                (primaryKey_not_mem_build c id id2 old)
                (primaryKey_not_mem_build c id id2 v)]
              exact hlive
  · intro n kb id2 r ver hnkb hlive
    by_cases hid : id2 = id
    · subst hid
      rw [hprim] at hlive
      have hr : v = r := congrArg Prod.fst (Option.some.inj hlive)
      obtain ⟨ver2, hv2⟩ := hmemNew (indexEntryKey c n (kb v) id2)
        ((mem_buildSecondaryKeys _ _ _ _).mpr ⟨n, kb, hnkb, rfl⟩)
      rw [← hr]
      simp [hv2]
    · have hlive0 : lookupE st.entries (primaryKey c id2) = some (r, ver) := by
        rw [← hframe (primaryKey c id2)
          (fun hh => hid (primaryKey_inj c id2 id hh))
          (primaryKey_not_mem_build c id id2 old)
          (primaryKey_not_mem_build c id id2 v)]
        exact hlive
      have hpre := hg.2 n kb id2 r ver hnkb hlive0
      rw [hframe (indexEntryKey c n (kb r) id2)
        (indexEntryKey_ne_primaryKey c n (kb r) id2 id)
        (fun hh => hid ((indexEntryKey_mem_build c n (kb r) id id2 old hh).1))
        (fun hh => hid ((indexEntryKey_mem_build c n (kb r) id id2 v hh).1))]
      exact hpre

theorem merge_preserves (c : RESTfulCollection) (st : Kv) (id : String)
    (mv old : Record) (ver0 : Nat) (h : st.reliable) (hg : goodState c st)
    (hold : st.get (primaryKey c id) = some (old, ver0)) :
    (RESTfulCollection.merge c st id mv).1.reliable ∧
      goodState c (RESTfulCollection.merge c st id mv).1 := by
  rw [merge_eq_replace c st id mv old ver0 hold]
  exact replace_preserves c st id (spreadFields old mv) old ver0 h hg hold

theorem delete_preserves (c : RESTfulCollection) (st : Kv) (id : String)
    (old : Record) (ver0 : Nat) (h : st.reliable) (hg : goodState c st)
    (hold : st.get (primaryKey c id) = some (old, ver0)) :
    (RESTfulCollection.delete c st id).1.reliable ∧
      goodState c (RESTfulCollection.delete c st id).1 := by
  obtain ⟨st2, heq, h2rel, hprim, hdelOld, hframe⟩ :=
    delete_reliable_char c st id old ver0 h hold
  have holdE : lookupE st.entries (primaryKey c id) = some (old, ver0) := hold
  rw [heq]
  refine ⟨h2rel, ?_, ?_⟩
  · intro k val hk
    by_cases hkOld : k ∈ buildSecondaryKeys c id old
    · rw [hdelOld k hkOld] at hk
      exact Option.noConfusion hk
    · by_cases hkp : k = primaryKey c id
      · rw [hkp, hprim] at hk
        exact Option.noConfusion hk
      · rw [hframe k hkp hkOld] at hk
        rcases hg.1 k val hk with ⟨id2, rfl⟩ |
          ⟨n, kb, id2, r, ver, hnkb, hlive, rfl⟩
        · exact Or.inl ⟨id2, rfl⟩
        · by_cases hid : id2 = id
          · subst hid
            rw [holdE] at hlive
            have hr : old = r := congrArg Prod.fst (Option.some.inj hlive)
            exfalso
            apply hkOld
            rw [← hr]
            exact (mem_buildSecondaryKeys _ _ _ _).mpr ⟨n, kb, hnkb, rfl⟩
          · refine Or.inr ⟨n, kb, id2, r, ver, hnkb, ?_, rfl⟩
            rw [hframe (primaryKey c id2)
              (fun hh => hid (primaryKey_inj c id2 id hh))
              (primaryKey_not_mem_build c id id2 old)]
            exact hlive
  · intro n kb id2 r ver hnkb hlive
    by_cases hid : id2 = id
    · subst hid
      rw [hprim] at hlive
      exact Option.noConfusion hlive
    · have hlive0 : lookupE st.entries (primaryKey c id2) = some (r, ver) := by
        rw [← hframe (primaryKey c id2)
          (fun hh => hid (primaryKey_inj c id2 id hh))
          (primaryKey_not_mem_build c id id2 old)]
        exact hlive
      have hpre := hg.2 n kb id2 r ver hnkb hlive0
      rw [hframe (indexEntryKey c n (kb r) id2)
        (indexEntryKey_ne_primaryKey c n (kb r) id2 id)
        (fun hh => hid ((indexEntryKey_mem_build c n (kb r) id id2 old hh).1))]
      exact hpre

theorem emptyKv_reliable : emptyKv.reliable := ⟨rfl, rfl, rfl⟩

theorem opStep_preserves (c : RESTfulCollection) (st : Kv) (op : Op)
    (h : st.reliable) (hg : goodState c st)
    (hfr : (match op with
      | Op.append id _ => (lookupE st.entries (primaryKey c id)).isNone
      | _ => true) = true) :
    (opStep c st op).1.reliable ∧ goodState c (opStep c st op).1 := by
  cases op with
  | append id v =>
      have hfresh : lookupE st.entries (primaryKey c id) = none := by
        simpa using hfr
      exact append_preserves c st id v h hg hfresh
  | replace id v =>
      show (RESTfulCollection.replace c st id v).1.reliable ∧
        goodState c (RESTfulCollection.replace c st id v).1
      cases hlook : st.get (primaryKey c id) with
      | none =>
          rw [replace_not_found c st id v hlook]
          exact ⟨h, hg⟩
      | some p =>
          obtain ⟨old, ver0⟩ := p
          exact replace_preserves c st id v old ver0 h hg hlook
  | merge id mv =>
      show (RESTfulCollection.merge c st id mv).1.reliable ∧
        goodState c (RESTfulCollection.merge c st id mv).1
      cases hlook : st.get (primaryKey c id) with
      | none =>
          rw [merge_not_found c st id mv hlook]
          exact ⟨h, hg⟩
      | some p =>
          obtain ⟨old, ver0⟩ := p
          exact merge_preserves c st id mv old ver0 h hg hlook
  | delete id =>
      show (RESTfulCollection.delete c st id).1.reliable ∧
        goodState c (RESTfulCollection.delete c st id).1
      cases hlook : st.get (primaryKey c id) with
      | none =>
          rw [delete_not_found c st id hlook]
          exact ⟨h, hg⟩
      | some p =>
          obtain ⟨old, ver0⟩ := p
          exact delete_preserves c st id old ver0 h hg hlook

theorem runOps_preserves (c : RESTfulCollection) (st : Kv) (ops : List Op)
    (h : st.reliable) (hg : goodState c st) (hok : opsOk c st ops = true) :
    (runOps c st ops).reliable ∧ goodState c (runOps c st ops) := by
  induction ops generalizing st with
  | nil => exact ⟨h, hg⟩
  | cons op ops ih =>
      simp only [opsOk, Bool.and_eq_true] at hok
      obtain ⟨⟨hfr, -⟩, hrest⟩ := hok
      obtain ⟨h2, hg2⟩ := opStep_preserves c st op h hg hfr
      exact ih (opStep c st op).1 h2 hg2 hrest

theorem goodState_index_iff (c : RESTfulCollection) (st : Kv)
    (hN : (c.secondaryIndexes.map Prod.fst).Nodup) (hg : goodState c st)
    (n : String) (kb : Record → List String)
    (hmem : (n, kb) ∈ c.secondaryIndexes) (kp : List String) (id : String) :
    (lookupE st.entries (indexEntryKey c n kp id)).isSome = true ↔
      ∃ r ver, lookupE st.entries (primaryKey c id) = some (r, ver) ∧
        kb r = kp := by
  constructor
  · intro h
    obtain ⟨val, hval⟩ := Option.isSome_iff_exists.mp h
    rcases hg.1 _ val hval with ⟨id2, hk⟩ |
      ⟨n2, kb2, id2, r, ver, hnkb2, hlive, hk⟩
    · exact absurd hk (indexEntryKey_ne_primaryKey c n kp id id2)
    · obtain ⟨hn, hkp, hid⟩ :=
        indexEntryKey_inj c n n2 kp (kb2 r) id id2 (hk ▸ rfl)
      have hkb2 : kb2 = kb :=
        nodup_assoc_unique _ hN n kb2 kb (hn ▸ hnkb2) hmem
      refine ⟨r, ver, ?_, ?_⟩
      · rw [hid]
        exact hlive
      · rw [← hkb2, hkp]
  · rintro ⟨r, ver, hlive, rfl⟩
    exact hg.2 n kb id r ver hmem hlive

/-! ### A concrete demo collection for evaluating the theorems -/

/-- A keyBuilder whose output length depends on the record: field `a`
always contributes, field `b` contributes when present. -/
def varKb (r : Record) : List String :=
  match lookupField r "a", lookupField r "b" with
  | some (FieldVal.s x), some (FieldVal.s y) => [x, y]
  | some (FieldVal.s x), _ => [x]
  | _, _ => []

/-- A concrete collection with one registered index. -/
def demoColl : RESTfulCollection := ⟨"tasks", [("by-project", varKb)]⟩

/-! ### Well-formed stored values and the listSubcollection view -/

/-- Every value stored anywhere in the store avoids the reserved metadata
field names (the namespacing convention; index markers are empty). -/
def storeWF (st : Kv) : Bool :=
  st.entries.all (fun e => noReserved e.2.1)

theorem storeWF_lookup (st : Kv) (k : Key) (r : Record) (ver : Nat)
    (hwf : storeWF st = true)
    (h : lookupE st.entries k = some (r, ver)) : noReserved r = true := by
  have hmem := lookupE_some_mem st.entries k (r, ver) h
  exact List.all_eq_true.mp hwf _ hmem

theorem keyExtends_iff (p k : Key) :
    keyExtends p k = true ↔ p <+: k ∧ p.length < k.length := by
  unfold keyExtends
  rw [Bool.and_eq_true, List.isPrefixOf_iff_prefix, decide_eq_true_eq]

theorem prefix_append_singleton (l1 l2 : List String) (x : String)
    (h : l1 <+: l2 ++ [x]) (hl : l1.length ≤ l2.length) : l1 <+: l2 := by
  have h2 : l1 <+: (l2 ++ [x]).take l2.length :=
    List.prefix_take_iff.mpr ⟨h, hl⟩
  rwa [List.take_left] at h2

/-- Membership in the result of `listSubcollection`: exactly the
metadata-augmented primary records of ids trailing some stored key under
the scanned prefix whose primary record exists. -/
theorem mem_listSubcollection (c : RESTfulCollection) (st : Kv)
    (sub : String) (keys : List String) (r : Record) :
    r ∈ RESTfulCollection.listSubcollection c st sub keys ↔
      ∃ k, (∃ val, lookupE st.entries k = some val) ∧
        keyExtends (idxHead c :: sub :: keys) k = true ∧
        ∃ r2 ver2,
          lookupE st.entries (primaryKey c (lastD k)) = some (r2, ver2) ∧
          r = withMetadata (lastD k) ver2 r2 := by
  unfold RESTfulCollection.listSubcollection
  rw [List.mem_filterMap]
  constructor
  · rintro ⟨e, hmem, hsome⟩
    obtain ⟨he, hext⟩ := List.mem_filter.mp hmem
    refine ⟨e.1, ⟨(lookupE st.entries e.1).get (mem_lookupE_isSome _ e he),
      Option.eq_some_of_isSome _⟩, hext, ?_⟩
    cases hget : st.get (primaryKey c (lastD e.1)) with
    | none => rw [hget] at hsome; exact Option.noConfusion hsome
    | some p =>
        obtain ⟨v, ver⟩ := p
        rw [hget] at hsome
        exact ⟨v, ver, hget, (Option.some.inj hsome).symm⟩
  · rintro ⟨k, ⟨val, hk⟩, hext, r2, ver2, hlive, rfl⟩
    refine ⟨(k, val), List.mem_filter.mpr
      ⟨lookupE_some_mem st.entries k val hk, hext⟩, ?_⟩
    show (match st.get (primaryKey c (lastD k)) with
      | none => none
      | some (v, ver) => some (withMetadata (lastD k) ver v)) = _
    rw [show st.get (primaryKey c (lastD k)) = some (r2, ver2) from hlive]

theorem noReserved_spreadFields (a b : Record) (ha : noReserved a = true)
    (hb : noReserved b = true) : noReserved (spreadFields a b) = true := by
  rw [noReserved, List.all_eq_true]
  intro x hx
  rcases List.mem_append.mp hx with h1 | h1
  · obtain ⟨p, hp, rfl⟩ := List.mem_map.mp h1
    have hap := List.all_eq_true.mp ha p hp
    cases hlk : lookupField b p.1 <;> simpa [hlk] using hap
  · exact List.all_eq_true.mp hb x (List.mem_filter.mp h1).1

/-! ### Inversion of successful operation results -/

theorem append_ok_inv (c : RESTfulCollection) (st : Kv) (id : String)
    (v : Record) (st2 : Kv) (res : Record)
    (heq : RESTfulCollection.append c st id v = (st2, Except.ok res)) :
    ∃ ver, res = withMetadata id ver v ∧
      lookupE st2.entries (primaryKey c id) = some (v, ver) := by
  unfold RESTfulCollection.append at heq
  cases hset : st.set (primaryKey c id) v with
  | mk st1 outcome =>
      rw [hset] at heq
      cases outcome with
      | threw => simp at heq
      | committed ok ver =>
          cases ok with
          | false => simp at heq
          | true =>
              by_cases hthrew : (appendSecondaryKeys c st1 id v).2 = true
              · simp [hthrew] at heq
              · rw [Bool.not_eq_true] at hthrew
                simp [hthrew] at heq
                obtain ⟨hst2, hres⟩ := heq
                obtain ⟨hver, hprim, -⟩ :=
                  set_committed_true_inv st st1 _ v ver hset
                refine ⟨ver, hres.symm, ?_⟩
                rw [← hst2]
                show lookupE
                  (setAllMarkers st1 (buildSecondaryKeys c id v)).1.entries _ = _
                rw [lookupE_setAll_not_mem _ _ _
                  (primaryKey_not_mem_build c id id v), hprim, hver]

theorem replace_ok_inv (c : RESTfulCollection) (st : Kv) (id : String)
    (v : Record) (st2 : Kv) (res : Record)
    (heq : RESTfulCollection.replace c st id v =
      (st2, Except.ok (some res))) :
    ∃ old ver0 ver, lookupE st.entries (primaryKey c id) = some (old, ver0) ∧
      res = withMetadata id ver v ∧
      lookupE st2.entries (primaryKey c id) = some (v, ver) := by
  unfold RESTfulCollection.replace at heq
  cases hget : st.get (primaryKey c id) with
  | none =>
      rw [hget] at heq
      simp at heq
  | some p =>
      obtain ⟨old, ver0⟩ := p
      rw [hget] at heq
      cases hset : st.set (primaryKey c id) v with
      | mk st1 outcome =>
          rw [hset] at heq
          cases outcome with
          | threw => simp at heq
          | committed ok ver =>
              cases ok with
              | false => simp at heq
              | true =>
                  by_cases hD : (deleteSecondaryKeys c st1 id old).2 = true
                  · simp [hD] at heq
                  · rw [Bool.not_eq_true] at hD
                    by_cases hA : (appendSecondaryKeys c
                        (deleteSecondaryKeys c st1 id old).1 id v).2 = true
                    · simp [hD, hA] at heq
                    · rw [Bool.not_eq_true] at hA
                      simp [hD, hA] at heq
                      obtain ⟨hst2, hres⟩ := heq
                      obtain ⟨hver, hprim, -⟩ :=
                        set_committed_true_inv st st1 _ v ver hset
                      refine ⟨old, ver0, ver, hget, hres.symm, ?_⟩
                      rw [← hst2]
                      show lookupE (setAllMarkers
                        (deleteAllKeys st1 (buildSecondaryKeys c id old)).1
                        (buildSecondaryKeys c id v)).1.entries _ = _
                      rw [lookupE_setAll_not_mem _ _ _
                          (primaryKey_not_mem_build c id id v),
                        lookupE_deleteAll_not_mem _ _ _
                          (primaryKey_not_mem_build c id id old),
                        hprim, hver]

theorem merge_ok_inv (c : RESTfulCollection) (st : Kv) (id : String)
    (mv : Record) (st2 : Kv) (res : Record)
    (heq : RESTfulCollection.merge c st id mv = (st2, Except.ok (some res))) :
    ∃ old ver0 ver, lookupE st.entries (primaryKey c id) = some (old, ver0) ∧
      res = withMetadata id ver (spreadFields old mv) ∧
      lookupE st2.entries (primaryKey c id) =
        some (spreadFields old mv, ver) := by
  cases hget : st.get (primaryKey c id) with
  | none =>
      rw [merge_not_found c st id mv hget] at heq
      simp at heq
  | some p =>
      obtain ⟨old, ver0⟩ := p
      rw [merge_eq_replace c st id mv old ver0 hget] at heq
      obtain ⟨old2, ver02, ver, hold2, hres, hprim⟩ :=
        replace_ok_inv c st id _ st2 res heq
      have hoo : old2 = old := by
        have h2 : st.get (primaryKey c id) = some (old2, ver02) := hold2
        rw [hget] at h2
        exact (congrArg Prod.fst (Option.some.inj h2)).symm
      subst hoo
      exact ⟨old2, ver02, ver, hold2, hres, hprim⟩

theorem delete_ok_inv (c : RESTfulCollection) (st : Kv) (id : String)
    (st2 : Kv) (res : Record)
    (heq : RESTfulCollection.delete c st id = (st2, Except.ok (some res))) :
    ∃ old ver, lookupE st.entries (primaryKey c id) = some (old, ver) ∧
      res = withMetadata id ver old ∧
      lookupE st2.entries (primaryKey c id) = none := by
  unfold RESTfulCollection.delete at heq
  cases hget : st.get (primaryKey c id) with
  | none =>
      rw [hget] at heq
      simp at heq
  | some p =>
      obtain ⟨old, ver0⟩ := p
      rw [hget] at heq
      by_cases hDel : (st.del (primaryKey c id)).2 = true
      · simp [hDel] at heq
      · rw [Bool.not_eq_true] at hDel
        by_cases hD : (deleteSecondaryKeys c
            (st.del (primaryKey c id)).1 id old).2 = true
        · simp [hDel, hD] at heq
        · rw [Bool.not_eq_true] at hD
          simp [hDel, hD] at heq
          obtain ⟨hst2, hres⟩ := heq
          refine ⟨old, ver0, hget, hres.symm, ?_⟩
          rw [← hst2]
          show lookupE (deleteAllKeys (st.del (primaryKey c id)).1
            (buildSecondaryKeys c id old)).1.entries _ = none
          rw [lookupE_deleteAll_not_mem _ _ _
            (primaryKey_not_mem_build c id id old)]
          exact lookupE_del_self st _ hDel

/-! ### Partial index failure after a committed primary write -/

theorem append_partial_failure (c : RESTfulCollection) (st : Kv)
    (id : String) (v : Record)
    (hpt : primaryKey c id ∉ st.setThrowKeys)
    (hpo : primaryKey c id ∉ st.setOkFalseKeys)
    (hfail : ∃ k ∈ buildSecondaryKeys c id v, k ∈ st.setThrowKeys) :
    (∃ e, (RESTfulCollection.append c st id v).2 = Except.error e) ∧
      lookupE (RESTfulCollection.append c st id v).1.entries
        (primaryKey c id) = some (v, st.counter) := by
  have hset : st.set (primaryKey c id) v =
      ({ st with
          entries := insertEntry (primaryKey c id) v st.counter st.entries,
          counter := st.counter + 1 },
        SetOutcome.committed true st.counter) := by
    unfold Kv.set
    rw [if_neg hpt, if_neg hpo]
  have hA : (appendSecondaryKeys c
      { st with
          entries := insertEntry (primaryKey c id) v st.counter st.entries,
          counter := st.counter + 1 } id v).2 = true :=
    (setAll_threw_iff _ _).mpr hfail
  have heq : RESTfulCollection.append c st id v =
      ((appendSecondaryKeys c
        { st with
            entries := insertEntry (primaryKey c id) v st.counter st.entries,
            counter := st.counter + 1 } id v).1,
        Except.error "kv.set rejected") := by
    unfold RESTfulCollection.append
    rw [hset]
    simp [hA]
  rw [heq]
  refine ⟨⟨"kv.set rejected", rfl⟩, ?_⟩
  show lookupE (setAllMarkers _ (buildSecondaryKeys c id v)).1.entries _ = _
  rw [lookupE_setAll_not_mem _ _ _ (primaryKey_not_mem_build c id id v)]
  show lookupE (insertEntry (primaryKey c id) v st.counter st.entries) _ = _
  rw [lookupE_insertEntry]
  simp

theorem replaceLike_partial_failure (c : RESTfulCollection) (st : Kv)
    (id : String) (v old : Record) (ver0 : Nat)
    (hold : lookupE st.entries (primaryKey c id) = some (old, ver0))
    (hpt : primaryKey c id ∉ st.setThrowKeys)
    (hpo : primaryKey c id ∉ st.setOkFalseKeys)
    (hfail : (∃ k ∈ buildSecondaryKeys c id old, k ∈ st.deleteThrowKeys) ∨
      (∃ k ∈ buildSecondaryKeys c id v, k ∈ st.setThrowKeys)) :
    (∃ e, (RESTfulCollection.replace c st id v).2 = Except.error e) ∧
      lookupE (RESTfulCollection.replace c st id v).1.entries
        (primaryKey c id) = some (v, st.counter) := by
  have hset : st.set (primaryKey c id) v =
      ({ st with
          entries := insertEntry (primaryKey c id) v st.counter st.entries,
          counter := st.counter + 1 },
        SetOutcome.committed true st.counter) := by
    unfold Kv.set
    rw [if_neg hpt, if_neg hpo]
  have hlook1 : lookupE (insertEntry (primaryKey c id) v st.counter st.entries)
      (primaryKey c id) = some (v, st.counter) := by
    rw [lookupE_insertEntry]
    simp
  by_cases hD : (deleteSecondaryKeys c
      { st with
          entries := insertEntry (primaryKey c id) v st.counter st.entries,
          counter := st.counter + 1 } id old).2 = true
  · have heq : RESTfulCollection.replace c st id v =
        ((deleteSecondaryKeys c
          { st with
              entries := insertEntry (primaryKey c id) v st.counter st.entries,
              counter := st.counter + 1 } id old).1,
          Except.error "kv.delete rejected") := by
      unfold RESTfulCollection.replace
      rw [show st.get (primaryKey c id) = some (old, ver0) from hold, hset]
      simp [hD]
    rw [heq]
    refine ⟨⟨"kv.delete rejected", rfl⟩, ?_⟩
    show lookupE (deleteAllKeys _ (buildSecondaryKeys c id old)).1.entries _ = _
    rw [lookupE_deleteAll_not_mem _ _ _ (primaryKey_not_mem_build c id id old)]
    exact hlook1
  · have hA : (appendSecondaryKeys c
        (deleteSecondaryKeys c
          { st with
              entries := insertEntry (primaryKey c id) v st.counter st.entries,
              counter := st.counter + 1 } id old).1 id v).2 = true := by
      apply (setAll_threw_iff _ _).mpr
      rcases hfail with h1 | h1
      · exfalso
        apply hD
        apply (deleteAll_threw_iff _ _).mpr
        exact h1
      · obtain ⟨k, hk1, hk2⟩ := h1
        refine ⟨k, hk1, ?_⟩
        simp only [deleteSecondaryKeys]
        rw [(deleteAll_oracles _ _).1]
        exact hk2
    have heq : RESTfulCollection.replace c st id v =
        ((appendSecondaryKeys c
          (deleteSecondaryKeys c
            { st with
                entries := insertEntry (primaryKey c id) v st.counter st.entries,
                counter := st.counter + 1 } id old).1 id v).1,
          Except.error "kv.set rejected") := by
      unfold RESTfulCollection.replace
      rw [show st.get (primaryKey c id) = some (old, ver0) from hold, hset]
      rw [Bool.not_eq_true] at hD
      simp [hD, hA]
    rw [heq]
    refine ⟨⟨"kv.set rejected", rfl⟩, ?_⟩
    show lookupE (setAllMarkers _ (buildSecondaryKeys c id v)).1.entries _ = _
    rw [lookupE_setAll_not_mem _ _ _ (primaryKey_not_mem_build c id id v)]
    show lookupE (deleteAllKeys _ (buildSecondaryKeys c id old)).1.entries _ = _
    rw [lookupE_deleteAll_not_mem _ _ _ (primaryKey_not_mem_build c id id old)]
    exact hlook1

/-! ### Claim theorems -/

/-- C1: for every collection, starting from the empty store, after any
sequence of successfully completed append/replace/merge/delete operations
(run sequentially, no store failures, appends using fresh ids), a
secondary index entry at key [collection+suffix, indexName, ...keyParts,
id] exists if and only if a live primary record with that id exists at
[collection, id] and the registered keyBuilder for indexName applied to
that record's current value yields exactly keyParts. -/
theorem secondary_index_invariant (c : RESTfulCollection) (ops : List Op)
    (hN : (c.secondaryIndexes.map Prod.fst).Nodup)
    (hok : opsOk c emptyKv ops = true)
    (n : String) (kb : Record → List String)
    (hmem : (n, kb) ∈ c.secondaryIndexes) (kp : List String) (id : String) :
    (lookupE (runOps c emptyKv ops).entries
        (indexEntryKey c n kp id)).isSome = true ↔
      ∃ r ver,
        lookupE (runOps c emptyKv ops).entries (primaryKey c id) =
          some (r, ver) ∧ kb r = kp := by
  obtain ⟨-, hg⟩ := runOps_preserves c emptyKv ops emptyKv_reliable
    (goodState_emptyKv c) hok
  exact goodState_index_iff c _ hN hg n kb hmem kp id

/-- Witness for C1 at a concrete collection and operation sequence. -/
theorem secondary_index_invariant_witness :
    (lookupE (runOps demoColl emptyKv
        [Op.append "A" [("a", FieldVal.s "x")]]).entries
        (indexEntryKey demoColl "by-project" ["x"] "A")).isSome = true ↔
      ∃ r ver,
        lookupE (runOps demoColl emptyKv
          [Op.append "A" [("a", FieldVal.s "x")]]).entries
          (primaryKey demoColl "A") = some (r, ver) ∧ varKb r = ["x"] :=
  secondary_index_invariant demoColl [Op.append "A" [("a", FieldVal.s "x")]]
    (by decide) (by decide) "by-project" varKb (List.mem_cons_self _ _)
    ["x"] "A"

/-- C4: replace, merge and delete on a nonexistent id each return the
not-found sentinel and leave the entire store state unchanged. -/
theorem notfound_ops_noop (c : RESTfulCollection) (st : Kv) (id : String)
    (v mv : Record)
    (h : lookupE st.entries (primaryKey c id) = none) :
    RESTfulCollection.replace c st id v = (st, Except.ok none) ∧
    RESTfulCollection.merge c st id mv = (st, Except.ok none) ∧
    RESTfulCollection.delete c st id = (st, Except.ok none) :=
  ⟨replace_not_found c st id v h, merge_not_found c st id mv h,
    delete_not_found c st id h⟩

/-- Witness for C4 on the empty store. -/
theorem notfound_ops_noop_witness :
    lookupE emptyKv.entries (primaryKey demoColl "Z") = none ∧
    (RESTfulCollection.replace demoColl emptyKv "Z" [("a", FieldVal.s "q")] =
        (emptyKv, Except.ok none) ∧
      RESTfulCollection.merge demoColl emptyKv "Z" [("a", FieldVal.s "q")] =
        (emptyKv, Except.ok none) ∧
      RESTfulCollection.delete demoColl emptyKv "Z" =
        (emptyKv, Except.ok none)) :=
  ⟨rfl, notfound_ops_noop demoColl emptyKv "Z" [("a", FieldVal.s "q")]
    [("a", FieldVal.s "q")] rfl⟩

/-- C8: every record returned by listSubcollection comes from a stored
index entry under the scanned prefix whose trailing id has a live
primary record (dangling entries are silently skipped, and nothing is
returned that does not come from a stored index entry), and conversely
every stored entry under the prefix whose trailing id has a live primary
record contributes its metadata-augmented record. -/
theorem listSub_skips_dangling (c : RESTfulCollection) (st : Kv)
    (sub : String) (keys : List String) :
    (∀ r ∈ RESTfulCollection.listSubcollection c st sub keys,
      ∃ k r2 ver2, keyExtends (idxHead c :: sub :: keys) k = true ∧
        (lookupE st.entries k).isSome = true ∧
        lookupE st.entries (primaryKey c (lastD k)) = some (r2, ver2) ∧
        r = withMetadata (lastD k) ver2 r2) ∧
    (∀ k val r2 ver2, lookupE st.entries k = some val →
      keyExtends (idxHead c :: sub :: keys) k = true →
      lookupE st.entries (primaryKey c (lastD k)) = some (r2, ver2) →
      withMetadata (lastD k) ver2 r2 ∈
        RESTfulCollection.listSubcollection c st sub keys) := by
  constructor
  · intro r hr
    rw [mem_listSubcollection] at hr
    obtain ⟨k, ⟨val, hk⟩, hext, r2, ver2, hlive, rfl⟩ := hr
    exact ⟨k, r2, ver2, hext, by simp [hk], hlive, rfl⟩
  · intro k val r2 ver2 hk hext hlive
    rw [mem_listSubcollection]
    exact ⟨k, ⟨val, hk⟩, hext, r2, ver2, hlive, rfl⟩

/-- A store holding one dangling index entry (no primary record). -/
def danglingKv : Kv :=
  ⟨[(["tasks" ++ secondaryIndexSuffix, "by-project", "x", "GONE"], [], 0)],
    1, [], [], []⟩

/-- Witness for C8 on a store with a dangling index entry. -/
theorem listSub_skips_dangling_witness :
    (∀ r ∈ RESTfulCollection.listSubcollection demoColl danglingKv
        "by-project" ["x"],
      ∃ k r2 ver2,
        keyExtends (idxHead demoColl :: "by-project" :: ["x"]) k = true ∧
        (lookupE danglingKv.entries k).isSome = true ∧
        lookupE danglingKv.entries (primaryKey demoColl (lastD k)) =
          some (r2, ver2) ∧
        r = withMetadata (lastD k) ver2 r2) ∧
    (∀ k val r2 ver2, lookupE danglingKv.entries k = some val →
      keyExtends (idxHead demoColl :: "by-project" :: ["x"]) k = true →
      lookupE danglingKv.entries (primaryKey demoColl (lastD k)) =
        some (r2, ver2) →
      withMetadata (lastD k) ver2 r2 ∈
        RESTfulCollection.listSubcollection demoColl danglingKv
          "by-project" ["x"]) :=
  listSub_skips_dangling demoColl danglingKv "by-project" ["x"]

/-- C3: merge on an existing record stores exactly the shallow
field-union of the old record and the partial record: fields present in
the partial record override, old fields absent from the partial record
are retained unchanged, and no other fields appear. -/
theorem merge_shallow_union (c : RESTfulCollection) (st : Kv) (id : String)
    (old mv : Record) (ver0 : Nat) (hrel : st.reliable)
    (hold : lookupE st.entries (primaryKey c id) = some (old, ver0)) :
    ∃ st2 res, RESTfulCollection.merge c st id mv =
        (st2, Except.ok (some res)) ∧
      lookupE st2.entries (primaryKey c id) =
        some (spreadFields old mv, st.counter) ∧
      (∀ f x, lookupField mv f = some x →
        lookupField (spreadFields old mv) f = some x) ∧
      (∀ f, lookupField mv f = none →
        lookupField (spreadFields old mv) f = lookupField old f) := by
  rw [merge_eq_replace c st id mv old ver0 hold]
  obtain ⟨st2, heq, -, hprim, -⟩ :=
    replace_reliable_char c st id (spreadFields old mv) old ver0 hrel hold
  refine ⟨st2, withMetadata id st.counter (spreadFields old mv), heq, hprim,
    ?_, ?_⟩
  · intro f x hx
    rw [lookupField_spreadFields, hx]
  · intro f hx
    rw [lookupField_spreadFields, hx]

/-- A store holding the single record (a: 0, b: 2) under id M, as left
by one append on the empty store. -/
def mergeDemoKv : Kv :=
  runOps demoColl emptyKv
    [Op.append "M" [("a", FieldVal.s "0"), ("b", FieldVal.s "2")]]

/-- Witness for C3: merging (a: 1) into (a: 0, b: 2) stores
(a: 1, b: 2). -/
theorem merge_shallow_union_witness :
    (mergeDemoKv.reliable ∧
      lookupE mergeDemoKv.entries (primaryKey demoColl "M") =
        some ([("a", FieldVal.s "0"), ("b", FieldVal.s "2")], 0) ∧
      spreadFields [("a", FieldVal.s "0"), ("b", FieldVal.s "2")]
        [("a", FieldVal.s "1")] =
        [("a", FieldVal.s "1"), ("b", FieldVal.s "2")]) ∧
    ∃ st2 res, RESTfulCollection.merge demoColl mergeDemoKv "M"
        [("a", FieldVal.s "1")] = (st2, Except.ok (some res)) ∧
      lookupE st2.entries (primaryKey demoColl "M") =
        some (spreadFields [("a", FieldVal.s "0"), ("b", FieldVal.s "2")]
          [("a", FieldVal.s "1")], mergeDemoKv.counter) ∧
      (∀ f x, lookupField [("a", FieldVal.s "1")] f = some x →
        lookupField (spreadFields
          [("a", FieldVal.s "0"), ("b", FieldVal.s "2")]
          [("a", FieldVal.s "1")]) f = some x) ∧
      (∀ f, lookupField [("a", FieldVal.s "1")] f = none →
        lookupField (spreadFields
          [("a", FieldVal.s "0"), ("b", FieldVal.s "2")]
          [("a", FieldVal.s "1")]) f =
          lookupField [("a", FieldVal.s "0"), ("b", FieldVal.s "2")] f) :=
  ⟨⟨by decide, by decide, by decide⟩,
    merge_shallow_union demoColl mergeDemoKv "M"
      [("a", FieldVal.s "0"), ("b", FieldVal.s "2")] [("a", FieldVal.s "1")]
      0 (by decide) (by decide)⟩

/-- C6: after append succeeds with result res, the result's reserved id
field holds the generated id and get on that id returns exactly the
append result (the version markers are equal as well). -/
theorem append_get_roundtrip (c : RESTfulCollection) (st : Kv) (id : String)
    (v : Record) (st2 : Kv) (res : Record) (hnr : noReserved v = true)
    (heq : RESTfulCollection.append c st id v = (st2, Except.ok res)) :
    lookupField res "$$id" = some (FieldVal.s id) ∧
    RESTfulCollection.get c st2 id = some res := by
  obtain ⟨ver, hres, hprim⟩ := append_ok_inv c st id v st2 res heq
  subst hres
  refine ⟨withMetadata_lookup_id id ver v hnr, ?_⟩
  unfold RESTfulCollection.get
  rw [show st2.get (primaryKey c id) = some (v, ver) from hprim]

/-- Witness for C6 on a concrete append. -/
theorem append_get_roundtrip_witness :
    (noReserved [("a", FieldVal.s "x")] = true ∧
      RESTfulCollection.append demoColl emptyKv "A" [("a", FieldVal.s "x")] =
        ((runOps demoColl emptyKv [Op.append "A" [("a", FieldVal.s "x")]]),
          Except.ok [("$$id", FieldVal.s "A"), ("$$versionstamp", FieldVal.n 0),
            ("a", FieldVal.s "x")])) ∧
    lookupField [("$$id", FieldVal.s "A"), ("$$versionstamp", FieldVal.n 0),
        ("a", FieldVal.s "x")] "$$id" = some (FieldVal.s "A") ∧
    RESTfulCollection.get demoColl
        (runOps demoColl emptyKv [Op.append "A" [("a", FieldVal.s "x")]]) "A" =
      some [("$$id", FieldVal.s "A"), ("$$versionstamp", FieldVal.n 0),
        ("a", FieldVal.s "x")] :=
  ⟨⟨by decide, by rfl⟩,
    append_get_roundtrip demoColl emptyKv "A" [("a", FieldVal.s "x")]
      (runOps demoColl emptyKv [Op.append "A" [("a", FieldVal.s "x")]])
      [("$$id", FieldVal.s "A"), ("$$versionstamp", FieldVal.n 0),
        ("a", FieldVal.s "x")] (by decide) (by rfl)⟩

/-- C10: merging the empty partial record into an existing record (in any
state reached by successful operations from the empty store) succeeds
and is an identity on stored data: the primary value is unchanged and
the same derived index keys are deleted and rewritten, so the set of
stored keys is unchanged. -/
theorem merge_empty_identity (c : RESTfulCollection) (ops : List Op)
    (hok : opsOk c emptyKv ops = true) (id : String) (old : Record)
    (ver0 : Nat)
    (hold : lookupE (runOps c emptyKv ops).entries (primaryKey c id) =
      some (old, ver0)) :
    ∃ st2 res, RESTfulCollection.merge c (runOps c emptyKv ops) id [] =
        (st2, Except.ok (some res)) ∧
      lookupE st2.entries (primaryKey c id) =
        some (old, (runOps c emptyKv ops).counter) ∧
      ∀ k, (lookupE st2.entries k).isSome =
        (lookupE (runOps c emptyKv ops).entries k).isSome := by
  obtain ⟨hrel, hg⟩ := runOps_preserves c emptyKv ops emptyKv_reliable
    (goodState_emptyKv c) hok
  have hmerge := merge_eq_replace c (runOps c emptyKv ops) id [] old ver0 hold
  rw [spreadFields_nil] at hmerge
  obtain ⟨st2, heq, -, hprim, hmemNew, -, hframe⟩ :=
    replace_reliable_char c (runOps c emptyKv ops) id old old ver0 hrel hold
  refine ⟨st2, withMetadata id (runOps c emptyKv ops).counter old,
    hmerge.trans heq, hprim, ?_⟩
  intro k
  by_cases hkNew : k ∈ buildSecondaryKeys c id old
  · obtain ⟨ver2, h2⟩ := hmemNew k hkNew
    obtain ⟨n, kb, hnkb, rfl⟩ := (mem_buildSecondaryKeys _ _ _ _).mp hkNew
    have hpre := hg.2 n kb id old ver0 hnkb hold
    rw [h2, hpre]
    rfl
  · by_cases hkp : k = primaryKey c id
    · subst hkp
      rw [hprim, hold]
      rfl
    · rw [hframe k hkp hkNew hkNew]

/-- Witness for C10 on a store holding one appended record. -/
theorem merge_empty_identity_witness :
    (opsOk demoColl emptyKv
        [Op.append "M" [("a", FieldVal.s "0"), ("b", FieldVal.s "2")]] =
        true ∧
      lookupE mergeDemoKv.entries (primaryKey demoColl "M") =
        some ([("a", FieldVal.s "0"), ("b", FieldVal.s "2")], 0)) ∧
    ∃ st2 res, RESTfulCollection.merge demoColl
        (runOps demoColl emptyKv
          [Op.append "M" [("a", FieldVal.s "0"), ("b", FieldVal.s "2")]])
        "M" [] = (st2, Except.ok (some res)) ∧
      lookupE st2.entries (primaryKey demoColl "M") =
        some ([("a", FieldVal.s "0"), ("b", FieldVal.s "2")],
          (runOps demoColl emptyKv
            [Op.append "M" [("a", FieldVal.s "0"), ("b", FieldVal.s "2")]]).counter) ∧
      ∀ k, (lookupE st2.entries k).isSome =
        (lookupE (runOps demoColl emptyKv
          [Op.append "M" [("a", FieldVal.s "0"), ("b", FieldVal.s "2")]]).entries
          k).isSome :=
  ⟨⟨by decide, by decide⟩,
    merge_empty_identity demoColl
      [Op.append "M" [("a", FieldVal.s "0"), ("b", FieldVal.s "2")]]
      (by decide) "M" [("a", FieldVal.s "0"), ("b", FieldVal.s "2")] 0
      (by decide)⟩

/-- C5: deleting an existing record returns the metadata-augmented
pre-deletion record with its pre-deletion version marker; afterwards get
returns the not-found sentinel and, for every registered index,
listSubcollection over the record's formerly derived key parts contains
no entry carrying that id. -/
theorem delete_removes_traces (c : RESTfulCollection) (st : Kv) (id : String)
    (old : Record) (ver0 : Nat) (hrel : st.reliable)
    (hwf : storeWF st = true)
    (hold : lookupE st.entries (primaryKey c id) = some (old, ver0)) :
    ∃ st2, RESTfulCollection.delete c st id =
        (st2, Except.ok (some (withMetadata id ver0 old))) ∧
      RESTfulCollection.get c st2 id = none ∧
      ∀ n kb, (n, kb) ∈ c.secondaryIndexes →
        ∀ r ∈ RESTfulCollection.listSubcollection c st2 n (kb old),
          lookupField r "$$id" ≠ some (FieldVal.s id) := by
  obtain ⟨st2, heq, -, hprim, hdelOld, hframe⟩ :=
    delete_reliable_char c st id old ver0 hrel hold
  refine ⟨st2, heq, ?_, ?_⟩
  · unfold RESTfulCollection.get
    rw [show st2.get (primaryKey c id) = none from hprim]
  · intro n kb hnkb r hr
    rw [mem_listSubcollection] at hr
    obtain ⟨k, ⟨val, hk⟩, hext, r2, ver2, hlive, rfl⟩ := hr
    have hne : lastD k ≠ id := by
      intro hh
      rw [hh, hprim] at hlive
      exact Option.noConfusion hlive
    have hliveSt : lookupE st.entries (primaryKey c (lastD k)) =
        some (r2, ver2) := by
      rw [← hframe (primaryKey c (lastD k))
        (fun hh => hne (primaryKey_inj c (lastD k) id hh))
        (primaryKey_not_mem_build c id (lastD k) old)]
      exact hlive
    have hnr : noReserved r2 = true := storeWF_lookup st _ _ _ hwf hliveSt
    rw [withMetadata_lookup_id _ _ _ hnr]
    intro hcontra
    exact hne (FieldVal.s.inj (Option.some.inj hcontra))

/-- Witness for C5 on a store holding one appended record. -/
theorem delete_removes_traces_witness :
    (mergeDemoKv.reliable ∧ storeWF mergeDemoKv = true ∧
      lookupE mergeDemoKv.entries (primaryKey demoColl "M") =
        some ([("a", FieldVal.s "0"), ("b", FieldVal.s "2")], 0)) ∧
    ∃ st2, RESTfulCollection.delete demoColl mergeDemoKv "M" =
        (st2, Except.ok (some (withMetadata "M" 0
          [("a", FieldVal.s "0"), ("b", FieldVal.s "2")]))) ∧
      RESTfulCollection.get demoColl st2 "M" = none ∧
      ∀ n kb, (n, kb) ∈ demoColl.secondaryIndexes →
        ∀ r ∈ RESTfulCollection.listSubcollection demoColl st2 n
            (kb [("a", FieldVal.s "0"), ("b", FieldVal.s "2")]),
          lookupField r "$$id" ≠ some (FieldVal.s "M") :=
  ⟨⟨by decide, by decide, by decide⟩,
    delete_removes_traces demoColl mergeDemoKv "M"
      [("a", FieldVal.s "0"), ("b", FieldVal.s "2")] 0
      (by decide) (by decide) (by decide)⟩

/-- C9: when the primary write of append, replace or merge commits but a
subsequent secondary-index write or delete rejects, the operation
propagates a hard failure and the primary mutation is not rolled back:
the primary key still holds the newly written value. -/
theorem partial_index_failure (c : RESTfulCollection) (st : Kv)
    (id : String) :
    (∀ v : Record, primaryKey c id ∉ st.setThrowKeys →
      primaryKey c id ∉ st.setOkFalseKeys →
      (∃ k ∈ buildSecondaryKeys c id v, k ∈ st.setThrowKeys) →
      (∃ e, (RESTfulCollection.append c st id v).2 = Except.error e) ∧
        lookupE (RESTfulCollection.append c st id v).1.entries
          (primaryKey c id) = some (v, st.counter)) ∧
    (∀ (v old : Record) (ver0 : Nat),
      lookupE st.entries (primaryKey c id) = some (old, ver0) →
      primaryKey c id ∉ st.setThrowKeys →
      primaryKey c id ∉ st.setOkFalseKeys →
      ((∃ k ∈ buildSecondaryKeys c id old, k ∈ st.deleteThrowKeys) ∨
        (∃ k ∈ buildSecondaryKeys c id v, k ∈ st.setThrowKeys)) →
      (∃ e, (RESTfulCollection.replace c st id v).2 = Except.error e) ∧
        lookupE (RESTfulCollection.replace c st id v).1.entries
          (primaryKey c id) = some (v, st.counter)) ∧
    (∀ (mv old : Record) (ver0 : Nat),
      lookupE st.entries (primaryKey c id) = some (old, ver0) →
      primaryKey c id ∉ st.setThrowKeys →
      primaryKey c id ∉ st.setOkFalseKeys →
      ((∃ k ∈ buildSecondaryKeys c id old, k ∈ st.deleteThrowKeys) ∨
        (∃ k ∈ buildSecondaryKeys c id (spreadFields old mv),
          k ∈ st.setThrowKeys)) →
      (∃ e, (RESTfulCollection.merge c st id mv).2 = Except.error e) ∧
        lookupE (RESTfulCollection.merge c st id mv).1.entries
          (primaryKey c id) = some (spreadFields old mv, st.counter)) := by
  refine ⟨fun v hpt hpo hfail =>
      append_partial_failure c st id v hpt hpo hfail,
    fun v old ver0 hold hpt hpo hfail =>
      replaceLike_partial_failure c st id v old ver0 hold hpt hpo hfail,
    fun mv old ver0 hold hpt hpo hfail => ?_⟩
  rw [merge_eq_replace c st id mv old ver0 hold]
  exact replaceLike_partial_failure c st id (spreadFields old mv) old ver0
    hold hpt hpo hfail

/-- A store configured so that the one index entry write of the demo
collection rejects, while the primary write commits. -/
def failKv : Kv :=
  ⟨[], 0, [indexEntryKey demoColl "by-project" ["x"] "A"], [], []⟩

/-- Witness for C9: appending into `failKv` commits the primary write,
fails the index write, reports a hard failure, and leaves the primary
record in place. -/
theorem partial_index_failure_witness :
    (primaryKey demoColl "A" ∉ failKv.setThrowKeys ∧
      primaryKey demoColl "A" ∉ failKv.setOkFalseKeys ∧
      (∃ k ∈ buildSecondaryKeys demoColl "A" [("a", FieldVal.s "x")],
        k ∈ failKv.setThrowKeys)) ∧
    (∃ e, (RESTfulCollection.append demoColl failKv "A"
        [("a", FieldVal.s "x")]).2 = Except.error e) ∧
      lookupE (RESTfulCollection.append demoColl failKv "A"
          [("a", FieldVal.s "x")]).1.entries
        (primaryKey demoColl "A") = some ([("a", FieldVal.s "x")], 0) :=
  ⟨⟨by decide, by decide, by decide⟩,
    (partial_index_failure demoColl failKv "A").1 [("a", FieldVal.s "x")]
      (by decide) (by decide) (by decide)⟩

/-- Counterexample to C7 as stated: appending a record whose own field
is named $$id succeeds, and the returned record's $$id field holds the
record's own value, not the generated id — the source spreads the record
value after the synthesized metadata fields, so record fields shadow
them. -/
theorem metadata_shadowing_cex :
    (RESTfulCollection.append demoColl emptyKv "A"
        [("$$id", FieldVal.s "evil")]).2 =
      Except.ok
        [("$$id", FieldVal.s "evil"), ("$$versionstamp", FieldVal.n 0)] ∧
    lookupField
        [("$$id", FieldVal.s "evil"), ("$$versionstamp", FieldVal.n 0)]
        "$$id" ≠ some (FieldVal.s "A") := by
  constructor
  · rfl
  · decide

/-- C7 amended: provided record values avoid the reserved metadata field
names $$id and $$versionstamp (the namespacing convention assumed by the
implementation), every operation that returns metadata-augmented records
returns results whose $$id field is the record's id and whose
$$versionstamp field is the observed store version marker. -/
theorem metadata_fields_correct (c : RESTfulCollection) (st : Kv)
    (hwf : storeWF st = true) :
    (∀ id r, RESTfulCollection.get c st id = some r →
      ∃ v ver, lookupE st.entries (primaryKey c id) = some (v, ver) ∧
        lookupField r "$$id" = some (FieldVal.s id) ∧
        lookupField r "$$versionstamp" = some (FieldVal.n ver)) ∧
    (∀ r ∈ RESTfulCollection.list c st,
      ∃ k v ver, (k, (v, ver)) ∈ st.entries ∧
        keyExtends [c.name] k = true ∧
        r = withMetadata (lastD k) ver v ∧
        lookupField r "$$id" = some (FieldVal.s (lastD k)) ∧
        lookupField r "$$versionstamp" = some (FieldVal.n ver)) ∧
    (∀ sub keys r, r ∈ RESTfulCollection.listSubcollection c st sub keys →
      ∃ id ver v, lookupE st.entries (primaryKey c id) = some (v, ver) ∧
        r = withMetadata id ver v ∧
        lookupField r "$$id" = some (FieldVal.s id) ∧
        lookupField r "$$versionstamp" = some (FieldVal.n ver)) ∧
    (∀ id v st2 res, noReserved v = true →
      RESTfulCollection.append c st id v = (st2, Except.ok res) →
      ∃ ver, lookupField res "$$id" = some (FieldVal.s id) ∧
        lookupField res "$$versionstamp" = some (FieldVal.n ver) ∧
        lookupE st2.entries (primaryKey c id) = some (v, ver)) ∧
    (∀ id v st2 res, noReserved v = true →
      RESTfulCollection.replace c st id v = (st2, Except.ok (some res)) →
      ∃ ver, lookupField res "$$id" = some (FieldVal.s id) ∧
        lookupField res "$$versionstamp" = some (FieldVal.n ver) ∧
        lookupE st2.entries (primaryKey c id) = some (v, ver)) ∧
    (∀ id mv st2 res, noReserved mv = true →
      RESTfulCollection.merge c st id mv = (st2, Except.ok (some res)) →
      ∃ old ver0 ver,
        lookupE st.entries (primaryKey c id) = some (old, ver0) ∧
        lookupField res "$$id" = some (FieldVal.s id) ∧
        lookupField res "$$versionstamp" = some (FieldVal.n ver) ∧
        lookupE st2.entries (primaryKey c id) =
          some (spreadFields old mv, ver)) ∧
    (∀ id st2 res,
      RESTfulCollection.delete c st id = (st2, Except.ok (some res)) →
      ∃ old ver,
        lookupE st.entries (primaryKey c id) = some (old, ver) ∧
        lookupField res "$$id" = some (FieldVal.s id) ∧
        lookupField res "$$versionstamp" = some (FieldVal.n ver) ∧
        lookupE st2.entries (primaryKey c id) = none) := by
  refine ⟨?_, ?_, ?_, ?_, ?_, ?_, ?_⟩
  · intro id r hr
    unfold RESTfulCollection.get at hr
    cases hget : st.get (primaryKey c id) with
    | none => rw [hget] at hr; exact Option.noConfusion hr
    | some p =>
        obtain ⟨v, ver⟩ := p
        rw [hget] at hr
        have hres := Option.some.inj hr
        have hnr : noReserved v = true := storeWF_lookup st _ _ _ hwf hget
        exact ⟨v, ver, hget, hres ▸ withMetadata_lookup_id id ver v hnr,
          hres ▸ withMetadata_lookup_vs id ver v hnr⟩
  · intro r hr
    unfold RESTfulCollection.list at hr
    obtain ⟨e, hmem, hres⟩ := List.mem_map.mp hr
    have he : e ∈ st.entries := (List.mem_filter.mp hmem).1
    have hext : keyExtends [c.name] e.1 = true := (List.mem_filter.mp hmem).2
    have hnr : noReserved e.2.1 = true := List.all_eq_true.mp hwf e he
    exact ⟨e.1, e.2.1, e.2.2, he, hext, hres.symm,
      hres ▸ withMetadata_lookup_id _ _ _ hnr,
      hres ▸ withMetadata_lookup_vs _ _ _ hnr⟩
  · intro sub keys r hr
    rw [mem_listSubcollection] at hr
    obtain ⟨k, -, -, r2, ver2, hlive, rfl⟩ := hr
    have hnr : noReserved r2 = true := storeWF_lookup st _ _ _ hwf hlive
    exact ⟨lastD k, ver2, r2, hlive, rfl,
      withMetadata_lookup_id _ _ _ hnr, withMetadata_lookup_vs _ _ _ hnr⟩
  · intro id v st2 res hnr heq
    obtain ⟨ver, hres, hprim⟩ := append_ok_inv c st id v st2 res heq
    subst hres
    exact ⟨ver, withMetadata_lookup_id id ver v hnr,
      withMetadata_lookup_vs id ver v hnr, hprim⟩
  · intro id v st2 res hnr heq
    obtain ⟨old, ver0, ver, -, hres, hprim⟩ :=
      replace_ok_inv c st id v st2 res heq
    subst hres
    exact ⟨ver, withMetadata_lookup_id id ver v hnr,
      withMetadata_lookup_vs id ver v hnr, hprim⟩
  · intro id mv st2 res hnr heq
    obtain ⟨old, ver0, ver, hold, hres, hprim⟩ :=
      merge_ok_inv c st id mv st2 res heq
    have hnrOld : noReserved old = true := storeWF_lookup st _ _ _ hwf hold
    have hnrSpread : noReserved (spreadFields old mv) = true :=
      noReserved_spreadFields old mv hnrOld hnr
    subst hres
    exact ⟨old, ver0, ver, hold, withMetadata_lookup_id _ _ _ hnrSpread,
      withMetadata_lookup_vs _ _ _ hnrSpread, hprim⟩
  · intro id st2 res heq
    obtain ⟨old, ver, hold, hres, hgone⟩ := delete_ok_inv c st id st2 res heq
    have hnrOld : noReserved old = true := storeWF_lookup st _ _ _ hwf hold
    subst hres
    exact ⟨old, ver, hold, withMetadata_lookup_id _ _ _ hnrOld,
      withMetadata_lookup_vs _ _ _ hnrOld, hgone⟩

/-- Witness for the amended C7: metadata extraction for get on a
concrete well-formed store. -/
theorem metadata_fields_correct_witness :
    storeWF mergeDemoKv = true ∧
    (∀ id r, RESTfulCollection.get demoColl mergeDemoKv id = some r →
      ∃ v ver,
        lookupE mergeDemoKv.entries (primaryKey demoColl id) =
          some (v, ver) ∧
        lookupField r "$$id" = some (FieldVal.s id) ∧
        lookupField r "$$versionstamp" = some (FieldVal.n ver)) :=
  ⟨by decide,
    (metadata_fields_correct demoColl mergeDemoKv (by decide)).1⟩

/-- Counterexample to C2 as stated: with keyBuilder f mapping records to
[a] or [a, b], replacing a record so that f(R1) = [x] becomes
f(R2) = [x, y] (so f(R1) is distinct from f(R2)) leaves the new index
entry inside the scanned prefix of f(R1), so
listSubcollection(idx, f(R1)) still contains the id. -/
theorem index_migration_cex :
    varKb [("a", FieldVal.s "x")] ≠
      varKb [("a", FieldVal.s "x"), ("b", FieldVal.s "y")] ∧
    (RESTfulCollection.replace demoColl
        (runOps demoColl emptyKv [Op.append "A" [("a", FieldVal.s "x")]])
        "A" [("a", FieldVal.s "x"), ("b", FieldVal.s "y")]).2 =
      Except.ok (some
        [("$$id", FieldVal.s "A"), ("$$versionstamp", FieldVal.n 2),
          ("a", FieldVal.s "x"), ("b", FieldVal.s "y")]) ∧
    ∃ r ∈ RESTfulCollection.listSubcollection demoColl
        (RESTfulCollection.replace demoColl
          (runOps demoColl emptyKv [Op.append "A" [("a", FieldVal.s "x")]])
          "A" [("a", FieldVal.s "x"), ("b", FieldVal.s "y")]).1
        "by-project" (varKb [("a", FieldVal.s "x")]),
      lookupField r "$$id" = some (FieldVal.s "A") := by
  refine ⟨by decide, by rfl, by decide⟩

/-- C2 amended: in a state reached from the empty store by successful
operations, with well-formed record values, after replace(id, R2)
succeeds where f(R1) and f(R2) differ and f(R1) is moreover not a
proper prefix of f(R2), listSubcollection(idx, f(R1)) no longer
contains an entry with that id, and listSubcollection(idx, f(R2))
contains the entry with that id holding R2's fields. -/
theorem index_migration (c : RESTfulCollection) (ops : List Op)
    (hN : (c.secondaryIndexes.map Prod.fst).Nodup)
    (hok : opsOk c emptyKv ops = true)
    (id : String) (r1v r2v : Record) (ver0 : Nat)
    (idx : String) (f : Record → List String)
    (hmem : (idx, f) ∈ c.secondaryIndexes)
    (hold : lookupE (runOps c emptyKv ops).entries (primaryKey c id) =
      some (r1v, ver0))
    (hwf : storeWF (runOps c emptyKv ops) = true)
    (hnr2 : noReserved r2v = true)
    (hne : f r1v ≠ f r2v)
    (hnp : ¬f r1v <+: f r2v) :
    ∃ st2, RESTfulCollection.replace c (runOps c emptyKv ops) id r2v =
        (st2, Except.ok (some (withMetadata id
          (runOps c emptyKv ops).counter r2v))) ∧
      (∀ r ∈ RESTfulCollection.listSubcollection c st2 idx (f r1v),
        lookupField r "$$id" ≠ some (FieldVal.s id)) ∧
      (∃ r ∈ RESTfulCollection.listSubcollection c st2 idx (f r2v),
        lookupField r "$$id" = some (FieldVal.s id) ∧
        ∀ fn, fn ≠ "$$id" → fn ≠ "$$versionstamp" →
          lookupField r fn = lookupField r2v fn) := by
  obtain ⟨hrel, hg⟩ := runOps_preserves c emptyKv ops emptyKv_reliable
    (goodState_emptyKv c) hok
  obtain ⟨st2, heq, h2rel, hprim, hmemNew, hdelOld, hframe⟩ :=
    replace_reliable_char c (runOps c emptyKv ops) id r2v r1v ver0 hrel hold
  have hg2 : goodState c st2 := by
    have hp := (replace_preserves c (runOps c emptyKv ops) id r2v r1v ver0
      hrel hg hold).2
    rw [heq] at hp
    exact hp
  refine ⟨st2, heq, ?_, ?_⟩
  · intro r hr
    rw [mem_listSubcollection] at hr
    obtain ⟨k, ⟨val, hk⟩, hext, r2, ver2, hlive, rfl⟩ := hr
    have hnr : noReserved r2 = true := by
      by_cases hid : lastD k = id
      · rw [hid, hprim] at hlive
        have hvv : r2v = r2 := congrArg Prod.fst (Option.some.inj hlive)
        rw [← hvv]
        exact hnr2
      · have hliveSt : lookupE (runOps c emptyKv ops).entries
            (primaryKey c (lastD k)) = some (r2, ver2) := by
          rw [← hframe (primaryKey c (lastD k))
            (fun hh => hid (primaryKey_inj c (lastD k) id hh))
            (primaryKey_not_mem_build c id (lastD k) r1v)
            (primaryKey_not_mem_build c id (lastD k) r2v)]
          exact hlive
        exact storeWF_lookup _ _ _ _ hwf hliveSt
    rw [withMetadata_lookup_id _ _ _ hnr]
    intro hcontra
    have hid : lastD k = id := FieldVal.s.inj (Option.some.inj hcontra)
    rcases hg2.1 k val hk with ⟨id3, hkP⟩ |
      ⟨n2, kb2, id3, r3, ver3, hnkb2, hlive3, hkI⟩
    · obtain ⟨hpre, hlen⟩ := (keyExtends_iff _ _).mp hext
      obtain ⟨t, ht⟩ := hpre
      rw [hkP] at ht
      have hhead : idxHead c = c.name := by
        have h2 := congrArg (fun l => l.head?) ht
        simpa [primaryKey] using h2
      exact idxHead_ne_name c hhead
    · subst hkI
      rw [lastD_indexEntryKey] at hid
      subst hid
      rw [hprim] at hlive3
      have hr3 : r2v = r3 := congrArg Prod.fst (Option.some.inj hlive3)
      obtain ⟨hpre, hlen⟩ := (keyExtends_iff _ _).mp hext
      obtain ⟨-, hpre2⟩ := List.cons_prefix_cons.mp hpre
      obtain ⟨hidx, hpre3⟩ := List.cons_prefix_cons.mp hpre2
      have hkb2 : kb2 = f := by
        apply nodup_assoc_unique _ hN idx kb2 f
        · rw [hidx]
          exact hnkb2
        · exact hmem
      rw [hkb2, ← hr3] at hpre3
      have hlen2 : (f r1v).length ≤ (f r2v).length := by
        simp only [indexEntryKey, List.length_cons, List.length_append,
          List.length_nil, hkb2, ← hr3] at hlen
        omega
      exact hnp (prefix_append_singleton _ _ _ hpre3 hlen2)
  · have hkmem : indexEntryKey c idx (f r2v) id ∈
        buildSecondaryKeys c id r2v :=
      (mem_buildSecondaryKeys _ _ _ _).mpr ⟨idx, f, hmem, rfl⟩
    obtain ⟨ver2, h2⟩ := hmemNew _ hkmem
    refine ⟨withMetadata id (runOps c emptyKv ops).counter r2v, ?_, ?_, ?_⟩
    · rw [mem_listSubcollection]
      refine ⟨indexEntryKey c idx (f r2v) id, ⟨([], ver2), h2⟩, ?_, r2v,
        (runOps c emptyKv ops).counter, ?_, ?_⟩
      · rw [keyExtends_iff]
        constructor
        · refine ⟨[id], ?_⟩
          simp [indexEntryKey]
        · simp [indexEntryKey]
      · rw [lastD_indexEntryKey]
        exact hprim
      · rw [lastD_indexEntryKey]
    · exact withMetadata_lookup_id _ _ _ hnr2
    · intro fn h1 h2x
      exact withMetadata_lookup_other _ _ _ fn h1 h2x

/-- Witness for the amended C2: replacing (a: x) by (a: z) migrates the
index entry from key parts [x] to [z]. -/
theorem index_migration_witness :
    ∃ st2, RESTfulCollection.replace demoColl
        (runOps demoColl emptyKv [Op.append "A" [("a", FieldVal.s "x")]])
        "A" [("a", FieldVal.s "z")] =
        (st2, Except.ok (some (withMetadata "A"
          (runOps demoColl emptyKv
            [Op.append "A" [("a", FieldVal.s "x")]]).counter
          [("a", FieldVal.s "z")]))) ∧
      (∀ r ∈ RESTfulCollection.listSubcollection demoColl st2 "by-project"
          (varKb [("a", FieldVal.s "x")]),
        lookupField r "$$id" ≠ some (FieldVal.s "A")) ∧
      (∃ r ∈ RESTfulCollection.listSubcollection demoColl st2 "by-project"
          (varKb [("a", FieldVal.s "z")]),
        lookupField r "$$id" = some (FieldVal.s "A") ∧
        ∀ fn, fn ≠ "$$id" → fn ≠ "$$versionstamp" →
          lookupField r fn = lookupField [("a", FieldVal.s "z")] fn) :=
  index_migration demoColl [Op.append "A" [("a", FieldVal.s "x")]]
    (by decide) (by decide) "A" [("a", FieldVal.s "x")]
    [("a", FieldVal.s "z")] 0 "by-project" varKb (List.mem_cons_self _ _)
    (by decide) (by decide) (by decide) (by decide) (by decide)
